import Mathlib

/-!
Verification development for the PixCollector collection and synchronization
engine.  The definitions below are a shallow embedding of the Python source:
`services/pixiv_service.py`, `repositories/artwork_repository.py`,
`repositories/base_repository.py`, `services/config_service.py` and
`services/huey_service.py`.  Timestamps are integers counting seconds,
database rows are Lean structures, the record store is explicit state that is
threaded through every operation, and the remote paginated API is a list of
pages supplied as input.  Theorems about the claims of the specification
follow the definitions.
-/

namespace PixCollector

/-- Time is modelled as an integer number of seconds; `timedelta(hours=1)`
is 3600 and `timedelta(days=1)` is 86400. -/
abbrev Time := Int

def secondsPerDay : Int := 86400

def secondsPerHour : Int := 3600

/-- One illust item as returned by the Pixiv API.  `create_date = none`
models an item without a `create_date` attribute, `has_meta_pages` models
the source condition that the item has a nonempty `meta_pages` field. -/
structure Item where
  id : Nat
  title : String
  user_id : Nat
  user_name : String
  user_avatar : Option String
  create_date : Option Time
  typ : String
  tags : List String
  page_count : Nat
  has_meta_pages : Bool
  total_bookmarks : Int
  total_view : Int
deriving Repr, DecidableEq

/-- The dictionary built by `PixivService._parse_artwork` for one page of a
work (the fields that the engine logic reads). -/
structure ArtworkData where
  illust_id : Nat
  title : String
  author_id : Nat
  author_name : String
  page_index : Nat
  page_count : Nat
  total_bookmarks : Int
  total_view : Int
  post_date : Option Time
  is_valid : Bool
  collect_type : String
  last_updated_at : Option Time
deriving Repr, DecidableEq

/-- One row of the `artworks` table.  `rid` is the autoincrement primary
key. -/
structure Artwork where
  rid : Nat
  illust_id : Nat
  title : String
  author_id : Nat
  author_name : String
  page_index : Nat
  page_count : Nat
  total_bookmarks : Int
  total_view : Int
  post_date : Option Time
  is_valid : Bool
  collect_type : String
  last_updated_at : Option Time
deriving Repr, DecidableEq

/-- One row of the `follows` table (`user_id` carries a unique index). -/
structure Follow where
  user_id : Nat
  user_name : String
  avatar_url : Option String
  first_collect_date : Option Time
  last_collect_date : Option Time
  last_artwork_date : Option Time
deriving Repr, DecidableEq

/-- The record store: the artwork and follow tables plus the next
autoincrement id for artworks. -/
structure Store where
  artworks : List Artwork
  follows : List Follow
  nextRid : Nat
deriving Repr, DecidableEq

/-- Translation of `PixivService._parse_artwork` for a single page index:
`is_valid` holds when the artwork type is "illust" and the tag list does not
contain "漫画", `last_updated_at` is set to the post date and `collect_type`
starts empty (the caller overwrites it). -/
def artworkDataOfItem (it : Item) (pageIndex : Nat) : ArtworkData :=
  { illust_id := it.id
    title := it.title
    author_id := it.user_id
    author_name := it.user_name
    page_index := pageIndex
    page_count := it.page_count
    total_bookmarks := it.total_bookmarks
    total_view := it.total_view
    post_date := it.create_date
    is_valid := it.typ == "illust" && !(it.tags.contains "漫画")
    collect_type := ""
    last_updated_at := it.create_date }

/-- Translation of `PixivService._parse_artwork`: a multi-page item yields
one dictionary per `page_index` in `range(page_count)`, a single-page item
yields one dictionary with `page_index = 0`. -/
def parse_artwork (it : Item) : List ArtworkData :=
  if it.has_meta_pages then
    (List.range it.page_count).map (artworkDataOfItem it)
  else
    [artworkDataOfItem it 0]

/-- The artwork row created from a parsed dictionary, with the given
autoincrement id. -/
def artworkOfData (rid : Nat) (d : ArtworkData) : Artwork :=
  { rid := rid
    illust_id := d.illust_id
    title := d.title
    author_id := d.author_id
    author_name := d.author_name
    page_index := d.page_index
    page_count := d.page_count
    total_bookmarks := d.total_bookmarks
    total_view := d.total_view
    post_date := d.post_date
    is_valid := d.is_valid
    collect_type := d.collect_type
    last_updated_at := d.last_updated_at }

/-- Translation of `ArtworkRepository.get_by_illust_id_and_page`: the first
row whose `(illust_id, page_index)` matches. -/
def get_by_illust_id_and_page (s : Store) (illustId pageIndex : Nat) :
    Option Artwork :=
  s.artworks.find? fun a =>
    a.illust_id == illustId && a.page_index == pageIndex

/-- Translation of `BaseRepository.update` restricted to artworks: apply a
field update to the row(s) with the given primary key. -/
def artwork_update (s : Store) (rid : Nat) (f : Artwork → Artwork) : Store :=
  { s with artworks := s.artworks.map fun a => if a.rid == rid then f a else a }

/-- Loop body of `ArtworkRepository.batch_create`: for each dictionary, if
no row with the same `(illust_id, page_index)` was committed before the
call, add a new row and count it.  The whole batch runs in one session
created with `autoflush=False` (core/database.py) and the model
(models/artwork.py) has no unique constraint on the pair, so the existence
`SELECT` sees only the rows committed before the call — held fixed in `s0`
here — and never the rows added earlier in the same batch: a batch carrying
one key twice inserts two rows. -/
def batch_create_loop (s0 : Store) :
    List ArtworkData → Store → Nat → Store × Nat
  | [], s, n => (s, n)
  | d :: rest, s, n =>
    match get_by_illust_id_and_page s0 d.illust_id d.page_index with
    | some _ => batch_create_loop s0 rest s n
    | none =>
        batch_create_loop s0 rest
          { s with
              artworks := s.artworks ++ [artworkOfData s.nextRid d]
              nextRid := s.nextRid + 1 }
          (n + 1)

/-- Translation of `ArtworkRepository.batch_create`: the committed rows the
session can see during the batch are the rows of `s` at the call. -/
def batch_create (s : Store) (datas : List ArtworkData) : Store × Nat :=
  batch_create_loop s datas s 0

/-- Translation of `FollowRepository.get_by_user_id`. -/
def follow_get_by_user_id (s : Store) (userId : Nat) : Option Follow :=
  s.follows.find? fun f => f.user_id == userId

/-- Translation of `BaseRepository.create` for follows: append a new row. -/
def follow_create (s : Store) (f : Follow) : Store :=
  { s with follows := s.follows ++ [f] }

/-- Session update of the follow row with the given `user_id` (the column
carries a unique index, so at most one row matches). -/
def follow_update (s : Store) (userId : Nat) (f : Follow → Follow) : Store :=
  { s with
      follows := s.follows.map fun g => if g.user_id == userId then f g else g }

/-- Cached credential state of the system config
(`access_token`, `refresh_token`, `pixiv_user`, `token_expires_at`). -/
structure TokenConfig where
  access_token : String
  refresh_token : String
  pixiv_user : Nat
  token_expires_at : Option Time
deriving Repr, DecidableEq

/-- The in-memory Pixiv client credential triple; `user_id = 0` models an
empty (falsy) user id. -/
structure TokenClient where
  access_token : String
  refresh_token : String
  user_id : Nat
deriving Repr, DecidableEq

/-- Translation of `PixivService._ensure_valid_token`.  The cached credential
is reused exactly when a stored expiry exists, it is strictly later than now
and the client user id is nonempty; otherwise the remote refresh result
`refreshed` becomes the client, the token pair plus user id are persisted and
the stored expiry becomes now plus one hour.  The verification call outcome
`verify_ok` is caught and logged, so it does not affect the result.  The
returned boolean reports whether a refresh was performed. -/
def ensure_valid_token (cfg : TokenConfig) (client : TokenClient) (now : Time)
    (refreshed : TokenClient) (verify_ok : Bool) :
    TokenConfig × TokenClient × Bool :=
  let reuse :=
    match cfg.token_expires_at with
    | some expiry => decide (expiry > now) && client.user_id != 0
    | none => false
  if reuse then
    (cfg, client, false)
  else
    let _ := verify_ok
    ({ cfg with
        access_token := refreshed.access_token
        refresh_token := refreshed.refresh_token
        pixiv_user := refreshed.user_id
        token_expires_at := some (now + secondsPerHour) },
      refreshed, true)

/-- One row of the `scheduler_configs` table. -/
structure SchedulerConfig where
  collect_type : String
  crontab_expression : String
  is_active : Bool
  last_run_time : Option Time
deriving Repr, DecidableEq

/-- The closed task-type enumeration of `_get_task_function` in
`services/huey_service.py`. -/
def known_task_types : List String :=
  ["ranking_works", "follow_new_follow", "follow_new_works",
    "update_artworks", "clean_up_logs"]

/-- Translation of the per-config body of `schedule_dispatcher_task`.
`cronNext expr t` models the croniter prediction of the next boundary of
`expr` strictly after `t`.  An inactive config or an unknown task type is
skipped.  A job is due when it has never run or when now has reached the
next cron boundary after its last run time; a due job is invoked (the
returned boolean) and its `last_run_time` is recorded after the invocation
returns. -/
def dispatch_config (cronNext : String → Time → Time) (now : Time)
    (cfg : SchedulerConfig) : SchedulerConfig × Bool :=
  if !cfg.is_active then (cfg, false)
  else if !(known_task_types.contains cfg.collect_type) then (cfg, false)
  else
    let should_run :=
      match cfg.last_run_time with
      | none => true
      | some last => decide (now ≥ cronNext cfg.crontab_expression last)
    if should_run then ({ cfg with last_run_time := some now }, true)
    else (cfg, false)

/-- Translation of `schedule_dispatcher_task` over the whole config table:
every config is dispatched once per tick; the result is the updated table
and the number of invoked jobs. -/
def schedule_dispatcher_tick (cronNext : String → Time → Time) (now : Time)
    (configs : List SchedulerConfig) : List SchedulerConfig × Nat :=
  configs.foldl
    (fun acc cfg =>
      let (cfg1, ran) := dispatch_config cronNext now cfg
      (acc.1 ++ [cfg1], acc.2 + if ran then 1 else 0))
    ([], 0)

/-- Midnight of the day containing `t`, translating
`get_utc_now().replace(hour=0, minute=0, second=0, microsecond=0)`. -/
def start_of_day (t : Time) : Time := t - t.emod secondsPerDay

/-- SQL comparison `column >= bound` on a nullable column: a NULL value
satisfies no comparison. -/
def sqlGe : Option Time → Time → Bool
  | some v, b => decide (v ≥ b)
  | none, _ => false

/-- SQL comparison `column < bound` on a nullable column: a NULL value
satisfies no comparison. -/
def sqlLt : Option Time → Time → Bool
  | some v, b => decide (v < b)
  | none, _ => false

/-- Sort key used by `ORDER BY last_updated_at ASC` (rows reaching the sort
always carry a non-NULL `last_updated_at`). -/
def update_key (a : Artwork) : Time := a.last_updated_at.getD 0

/-- Translation of `ArtworkRepository.get_artworks_for_update`: valid rows
whose `post_date` is at least `post_date_start` and whose `last_updated_at`
precedes the start of the current day, ordered by `last_updated_at`
ascending and limited to `per_page` rows. -/
def get_artworks_for_update (s : Store) (now : Time) (post_date_start : Time)
    (per_page : Nat) : List Artwork :=
  let update_date := start_of_day now
  let filtered := s.artworks.filter fun a =>
    a.is_valid && sqlGe a.post_date post_date_start &&
      sqlLt a.last_updated_at update_date
  (List.insertionSort (fun a b => update_key a ≤ update_key b) filtered).take
    per_page

/-- Translation of the per-artwork loop of `PixivService.update_artworks`:
for each selected row fetch the detail (`detail` returns `none` when the call
yields no usable illust payload, which skips the row), and when the bookmark
or view count changed, write the new counters plus a fresh
`last_updated_at`. -/
def update_artworks_fold (detail : Nat → Option Item) (now : Time) :
    List Artwork → Store × Nat → Store × Nat
  | [], acc => acc
  | a :: rest, (s, n) =>
    match detail a.illust_id with
    | none => update_artworks_fold detail now rest (s, n)
    | some it =>
        let new_bookmarks := it.total_bookmarks
        let new_view := it.total_view
        if new_bookmarks != a.total_bookmarks || new_view != a.total_view then
          update_artworks_fold detail now rest
            (artwork_update s a.rid fun b =>
              { b with
                  total_bookmarks := new_bookmarks
                  total_view := new_view
                  last_updated_at := some now }, n + 1)
        else
          update_artworks_fold detail now rest (s, n)

/-- Translation of `PixivService.update_artworks`: the cutoff is now minus
the configured number of days, the candidates come from
`get_artworks_for_update`, and each candidate is refreshed in place. -/
def update_artworks (detail : Nat → Option Item) (s : Store) (now : Time)
    (update_days : Int) (update_max_per_run : Nat) : Store × Nat :=
  let cutoff_date := now - update_days * secondsPerDay
  let artworks := get_artworks_for_update s now cutoff_date update_max_per_run
  update_artworks_fold detail now artworks (s, 0)

/-- Translation of `PixivService.collect_rank`: an empty ranking raises (the
run fails before anything is written); otherwise every item is parsed,
tagged with the `ranking_works` provenance and bulk-inserted through
`batch_create`. -/
def collect_rank (s : Store) (items : List Item) : Store × Nat :=
  if items.isEmpty then (s, 0)
  else
    batch_create s
      ((items.map fun it =>
          (parse_artwork it).map fun d =>
            { d with collect_type := "ranking_works" }).flatten)

/-- Loop body of `PixivService._save_artwork_all_page`: each parsed page is
created individually after a per-page existence check. -/
def save_artwork_loop (log_type : String) :
    List ArtworkData → Store → Nat → Store × Nat
  | [], s, n => (s, n)
  | d0 :: rest, s, n =>
    let d := { d0 with collect_type := log_type }
    match get_by_illust_id_and_page s d.illust_id d.page_index with
    | some _ => save_artwork_loop log_type rest s n
    | none =>
        save_artwork_loop log_type rest
          { s with
              artworks := s.artworks ++ [artworkOfData s.nextRid d]
              nextRid := s.nextRid + 1 }
          (n + 1)

/-- Translation of `PixivService._save_artwork_all_page`. -/
def save_artwork_all_page (s : Store) (log_type : String) (it : Item) :
    Store × Nat :=
  save_artwork_loop log_type (parse_artwork it) s 0

/-- One entry of a `get_following` page. -/
structure UserPreview where
  user_id : Nat
  user_name : String
  user_avatar : Option String
deriving Repr, DecidableEq

/-- The Follow row created by `sync_follows` for an unseen user: first
collect date now, no artwork or collect dates yet. -/
def createdFollow (now : Time) (u : UserPreview) : Follow :=
  { user_id := u.user_id
    user_name := u.user_name
    avatar_url := u.user_avatar
    first_collect_date := some now
    last_collect_date := none
    last_artwork_date := none }

/-- Translation of the per-user loop of `PixivService.sync_follows`: an
unseen user gets a Follow row and is counted, while an already-known user
stops the synchronization (the returned boolean is the remaining
`has_more`). -/
def sync_follows_users (now : Time) :
    List UserPreview → Store → Nat → Store × Nat × Bool
  | [], s, n => (s, n, true)
  | u :: rest, s, n =>
    match follow_get_by_user_id s u.user_id with
    | none =>
        sync_follows_users now rest (follow_create s (createdFollow now u))
          (n + 1)
    | some _ => (s, n, false)

/-- Translation of the pagination loop of `PixivService.sync_follows` over
the list of remote pages; the final component counts the `get_following`
calls that were made.  An empty page breaks the loop, a known user stops it
and an absent next page ends it. -/
def sync_follows_pages (now : Time) :
    List (List UserPreview) → Store → Nat → Store × Nat × Nat
  | [], s, n => (s, n, 0)
  | p :: rest, s, n =>
    if p.isEmpty then (s, n, 1)
    else
      let (s1, n1, more) := sync_follows_users now p s n
      if more then
        if rest.isEmpty then (s1, n1, 1)
        else
          let (s2, n2, fetched) := sync_follows_pages now rest s1 n1
          (s2, n2, fetched + 1)
      else (s1, n1, 1)

/-- Translation of `PixivService.sync_follows`: without a current user id
the run fails before fetching anything; otherwise the pages are traversed
with the early stop.  Returns the store, the new-follow count and the number
of fetched pages. -/
def sync_follows (s : Store) (client_user_id : Nat)
    (pages : List (List UserPreview)) (now : Time) : Store × Nat × Nat :=
  if client_user_id == 0 then (s, 0, 0)
  else sync_follows_pages now pages s 0

/-- Running state of the traversal loop of
`PixivService.collect_single_user_artworks`. -/
structure BackfillState where
  artworks_list : List ArtworkData
  collected_count : Nat
  last_artwork_date : Option Time
  first_artwork_date : Option Time
  actual_cutoff : Time
  has_more : Bool
deriving Repr, DecidableEq

/-- Parsed pages of one item tagged with the `follow_user_artworks`
provenance. -/
def tagged_user_pages (it : Item) : List ArtworkData :=
  (parse_artwork it).map fun d =>
    { d with collect_type := "follow_user_artworks" }

/-- Appending the parsed pages of one item to the backfill state. -/
def backfill_append (it : Item) (st : BackfillState) : BackfillState :=
  { st with
      artworks_list := st.artworks_list ++ tagged_user_pages it
      collected_count := st.collected_count + (tagged_user_pages it).length }

/-- Translation of the per-item loop of
`PixivService.collect_single_user_artworks` over one page.  For a dated item
the first observed date is recorded (and, when it precedes the preset
cutoff, the actual cutoff is pushed back by one full backtrack window
anchored to that date), the running page maximum is updated, and a date
before the actual cutoff stops the traversal before the item is parsed.
Undated items are parsed without any date handling.  The second component is
the running maximum date of the current page. -/
def backfill_items (backtrack_years : Int) (initial_cutoff : Time) :
    List Item → BackfillState → Option Time → BackfillState × Option Time
  | [], st, pageMax => (st, pageMax)
  | it :: rest, st, pageMax =>
    match it.create_date with
    | none =>
        backfill_items backtrack_years initial_cutoff rest
          (backfill_append it st) pageMax
    | some d =>
        let st1 :=
          if st.first_artwork_date.isNone then
            let st0 := { st with first_artwork_date := some d }
            if d < initial_cutoff then
              { st0 with
                  actual_cutoff :=
                    d - backtrack_years * 365 * secondsPerDay }
            else st0
          else st
        let pageMax1 :=
          match pageMax with
          | none => some d
          | some m => if d > m then some d else some m
        if d < st1.actual_cutoff then
          ({ st1 with has_more := false }, pageMax1)
        else
          backfill_items backtrack_years initial_cutoff rest
            (backfill_append it st1) pageMax1

/-- Merge of the page maximum date into the running `last_artwork_date`
after each backfill page: the running value is raised when the page maximum
exceeds it or when it was unset. -/
def merge_page_max (st : BackfillState) (pm : Option Time) : BackfillState :=
  match pm with
  | none => st
  | some m =>
    match st.last_artwork_date with
    | none => { st with last_artwork_date := some m }
    | some l => if m > l then { st with last_artwork_date := some m } else st

/-- Translation of the pagination loop of
`PixivService.collect_single_user_artworks`: an empty page breaks the loop,
after each page the page maximum raises the running `last_artwork_date`, and
traversal continues while the stop flag is unset and a next page exists. -/
def backfill_pages (backtrack_years : Int) (initial_cutoff : Time) :
    List (List Item) → BackfillState → BackfillState
  | [], st => st
  | p :: rest, st =>
    if p.isEmpty then st
    else
      let r := backfill_items backtrack_years initial_cutoff p st none
      let st2 := merge_page_max r.1 r.2
      if st2.has_more then
        if rest.isEmpty then st2
        else backfill_pages backtrack_years initial_cutoff rest st2
      else st2

/-- Initial backfill state with the given cutoff. -/
def backfill_init (cutoff : Time) : BackfillState :=
  { artworks_list := []
    collected_count := 0
    last_artwork_date := none
    first_artwork_date := none
    actual_cutoff := cutoff
    has_more := true }

/-- Translation of `PixivService.collect_single_user_artworks`: the preset
cutoff is now minus the backtrack window, the pages of the creator are
traversed, the surviving dictionaries are bulk-inserted through
`batch_create`, and when a maximum observed date exists the Follow row is
updated: `last_artwork_date` is assigned that maximum, `last_collect_date`
becomes now and a missing `first_collect_date` is filled in. -/
def collect_single_user_artworks (s : Store) (f : Follow)
    (backtrack_years : Int) (pages : List (List Item)) (now : Time) :
    Store × Nat :=
  let initial_cutoff := now - backtrack_years * 365 * secondsPerDay
  let st :=
    backfill_pages backtrack_years initial_cutoff pages
      (backfill_init initial_cutoff)
  let saved := batch_create s st.artworks_list
  let s2 :=
    match st.last_artwork_date with
    | some d =>
        follow_update saved.1 f.user_id fun inst =>
          { inst with
              last_artwork_date := some d
              last_collect_date := some now
              first_collect_date :=
                match inst.first_collect_date with
                | none => some now
                | some x => some x }
    | none => saved.1
  (s2, saved.2)

/-- Translation of `PixivService._should_process_artwork`: look up the page
zero record of the item.  A missing record is processed; an existing record
with an incremental-sync provenance stops the run; a ranking provenance is
reclassified in place to `follow_new_works` and processing continues; any
other provenance returns false, which the caller treats the same way as the
stop case. -/
def should_process_artwork (s : Store) (it : Item) : Store × Bool :=
  match get_by_illust_id_and_page s it.id 0 with
  | none => (s, true)
  | some existing =>
    if ["follow_new_works", "follow_user_artworks"].contains
        existing.collect_type then
      (s, false)
    else if ["daily_rank", "weekly_rank", "monthly_rank",
        "ranking_works"].contains existing.collect_type then
      (artwork_update s existing.rid fun a =>
          { a with collect_type := "follow_new_works" },
        true)
    else (s, false)

/-- Computation of the raised `last_artwork_date` in
`_process_user_from_artwork`: the post date of the first parsed page is
taken when the stored date is unset or exceeded; comparing an unset post
date against a set stored date raises a TypeError, modelled as `none`. -/
def raised_aux : Option Time → Option Time → Option (Option Time)
  | none, ad => some ad
  | some l, some a => some (if a > l then some a else some l)
  | some _, none => none

def raised_last_artwork_date (inst : Follow) (it : Item) :
    Option (Option Time) :=
  match parse_artwork it with
  | [] => some inst.last_artwork_date
  | d0 :: _ => raised_aux inst.last_artwork_date d0.post_date

/-- The session update of the Follow row of a known creator in
`_process_user_from_artwork`: refresh name and avatar, store the raised
`last_artwork_date` and set `last_collect_date` to now. -/
def follow_item_update (s : Store) (it : Item) (nl : Option Time)
    (now : Time) : Store :=
  follow_update s it.user_id fun g =>
    { g with
        user_name := it.user_name
        avatar_url :=
          match it.user_avatar with
          | some v => some v
          | none => g.avatar_url
        last_artwork_date := nl
        last_collect_date := some now }

/-- The Follow row created for a newly discovered creator in
`_process_user_from_artwork`. -/
def follow_of_item (it : Item) (now : Time) : Follow :=
  { user_id := it.user_id
    user_name := it.user_name
    avatar_url := it.user_avatar
    first_collect_date := some now
    last_collect_date := none
    last_artwork_date := none }

/-- Translation of `PixivService._process_user_from_artwork`.  For a known
creator the Follow row is updated in one session: name and avatar are
refreshed and `last_artwork_date` is raised only when it is unset or the
post date of the item exceeds it; comparing a post date of `None` against a
set stored date raises a TypeError, modelled by a `none` result (the caller
catches it and the session is rolled back, so the store is unchanged).  For
a new creator a Follow row is created and a full single-creator backfill of
the pages `userFeed` of that creator runs immediately; its saved count is
reported as backlog. -/
def process_user_from_artwork (userFeed : Nat → List (List Item)) (s : Store)
    (it : Item) (follow? : Option Follow) (backtrack_years : Int)
    (now : Time) : Option (Store × Bool × Nat) :=
  match follow? with
  | some _ =>
    match follow_get_by_user_id s it.user_id with
    | none => some (s, false, 0)
    | some inst =>
      match raised_last_artwork_date inst it with
      | none => none
      | some nl => some (follow_item_update s it nl now, false, 0)
  | none =>
      let nf := follow_of_item it now
      let s1 := follow_create s nf
      let backfilled :=
        collect_single_user_artworks s1 nf backtrack_years
          (userFeed it.user_id) now
      some (backfilled.1, true, backfilled.2)

/-- Translation of `PixivService._process_single_artwork`: parse the item,
look up its creator, handle the creator, and tag every parsed page with the
`follow_new_works` provenance.  A `none` result propagates the TypeError of
the user update. -/
def process_single_artwork (userFeed : Nat → List (List Item))
    (backtrack_years : Int) (s : Store) (it : Item) (now : Time) :
    Option (Store × List ArtworkData × Nat × Nat) :=
  let follow? := follow_get_by_user_id s it.user_id
  match process_user_from_artwork userFeed s it follow? backtrack_years now with
  | none => none
  | some (s1, is_new, backlog) =>
      some
        (s1,
          (parse_artwork it).map fun d =>
            { d with collect_type := "follow_new_works" },
          if is_new then 1 else 0, backlog)

/-- Result of processing one page of the followed-works feed. -/
structure PageResult where
  store : Store
  artworks : List ArtworkData
  new_users_count : Nat
  backlog_count : Nat
  has_more : Bool
deriving Repr, DecidableEq

/-- Translation of `PixivService._process_follow_works` over the items of
one page: a false answer of `should_process_artwork` returns immediately
with `has_more := false`; an exception while processing one item skips that
item (the reclassification already committed in its own session is kept);
otherwise the parsed pages and the counters accumulate. -/
def process_follow_works_items (userFeed : Nat → List (List Item))
    (backtrack_years : Int) (now : Time) :
    List Item → Store → List ArtworkData → Nat → Nat → Bool → PageResult
  | [], s, arts, nu, bl, hm =>
      { store := s, artworks := arts, new_users_count := nu,
        backlog_count := bl, has_more := hm }
  | it :: rest, s, arts, nu, bl, hm =>
    let checked := should_process_artwork s it
    if !checked.2 then
      { store := checked.1, artworks := arts, new_users_count := nu,
        backlog_count := bl, has_more := false }
    else
      match process_single_artwork userFeed backtrack_years checked.1 it now with
      | none =>
          process_follow_works_items userFeed backtrack_years now rest
            checked.1 arts nu bl hm
      | some (s2, newArts, isNew, backlog) =>
          process_follow_works_items userFeed backtrack_years now rest s2
            (arts ++ newArts) (nu + isNew) (bl + backlog) hm

/-- Translation of the pagination loop of
`PixivService._collect_follow_works`: an empty page models a fetch without
illusts and breaks the loop; each nonempty page is processed with
`has_more = true`, its results accumulate, and a false `has_more` stops the
pagination. -/
def collect_follow_works_pages (userFeed : Nat → List (List Item))
    (backtrack_years : Int) (now : Time) :
    List (List Item) → Store → List ArtworkData → Nat → Nat →
      Store × List ArtworkData × Nat × Nat
  | [], s, arts, nu, bl => (s, arts, nu, bl)
  | p :: rest, s, arts, nu, bl =>
    if p.isEmpty then (s, arts, nu, bl)
    else
      let r := process_follow_works_items userFeed backtrack_years now p s [] 0 0 true
      if r.has_more then
        collect_follow_works_pages userFeed backtrack_years now rest r.store
          (arts ++ r.artworks) (nu + r.new_users_count) (bl + r.backlog_count)
      else
        (r.store, arts ++ r.artworks, nu + r.new_users_count,
          bl + r.backlog_count)

/-- Translation of `PixivService.collect_follow_new_works` (through
`_collect_follow_works`): traverse the feed pages, then bulk-insert the
accumulated dictionaries through `batch_create`.  Returns the store, the
saved count, the new-user count and the backlog count. -/
def collect_follow_new_works (userFeed : Nat → List (List Item)) (s : Store)
    (backtrack_years : Int) (pages : List (List Item)) (now : Time) :
    Store × Nat × Nat × Nat :=
  let r := collect_follow_works_pages userFeed backtrack_years now pages s [] 0 0
  let saved := batch_create r.1 r.2.1
  (saved.1, saved.2, r.2.2.1, r.2.2.2)

/-- One strategy execution together with its environment (the remote pages
it would observe and its clock). -/
inductive StrategyRun where
  | rank (items : List Item)
  | syncFollows (client_user_id : Nat) (pages : List (List UserPreview))
      (now : Time)
  | backfill (f : Follow) (backtrack_years : Int) (pages : List (List Item))
      (now : Time)
  | followNewWorks (userFeed : Nat → List (List Item))
      (backtrack_years : Int) (pages : List (List Item)) (now : Time)
  | metadataRefresh (detail : Nat → Option Item) (now : Time)
      (update_days : Int) (update_max_per_run : Nat)
  | saveAllPage (log_type : String) (it : Item)

/-- The store effect of one strategy execution. -/
def applyStrategy : StrategyRun → Store → Store
  | .rank items, s => (collect_rank s items).1
  | .syncFollows uid pages now, s => (sync_follows s uid pages now).1
  | .backfill f years pages now, s =>
      (collect_single_user_artworks s f years pages now).1
  | .followNewWorks userFeed years pages now, s =>
      (collect_follow_new_works userFeed s years pages now).1
  | .metadataRefresh detail now days maxRun, s =>
      (update_artworks detail s now days maxRun).1
  | .saveAllPage log_type it, s => (save_artwork_all_page s log_type it).1

/-- The store after a sequence of strategy executions. -/
def applyStrategies (runs : List StrategyRun) (s : Store) : Store :=
  runs.foldl (fun acc r => applyStrategy r acc) s

/-- Deduplication key of an artwork row: the pair `(illust_id, page_index)`. -/
def artworkKey (a : Artwork) : Nat × Nat := (a.illust_id, a.page_index)

/-- The uniqueness invariant of the artwork table: every
`(illust_id, page_index)` pair appears at most once. -/
def UniqueKeys (l : List Artwork) : Prop := (l.map artworkKey).Nodup

instance uniqueKeysDecidable (l : List Artwork) : Decidable (UniqueKeys l) :=
  inferInstanceAs (Decidable ((l.map artworkKey).Nodup))

/-- Number of rows carrying a given deduplication key. -/
def countKey (l : List Artwork) (k : Nat × Nat) : Nat :=
  @List.count (Nat × Nat) instBEqOfDecidableEq k (l.map artworkKey)

/-- The key multiset of the artwork table only ever grows, and every
appended key was absent from the starting store: updates keep every key,
and each insert passed an existence check against a store that contains at
least the starting rows. -/
def KeysExtend (s s2 : Store) : Prop :=
  ∃ ex, s2.artworks.map artworkKey = s.artworks.map artworkKey ++ ex ∧
    ∀ k ∈ ex, k ∉ s.artworks.map artworkKey

/-- Order on nullable dates with null as the minimum, matching the
monotonicity property of `lastArtworkDate`. -/
def optTimeLe : Option Time → Option Time → Prop
  | none, _ => True
  | some a, some b => a ≤ b
  | some _, none => False

instance optTimeLeDecidable :
    ∀ (x y : Option Time), Decidable (optTimeLe x y)
  | none, _ => isTrue trivial
  | some a, some b => inferInstanceAs (Decidable (a ≤ b))
  | some _, none => isFalse fun h => h

/-- Stored `last_artwork_date` of a creator, null when the creator has no
Follow row. -/
def lastOf (s : Store) (uid : Nat) : Option Time :=
  (follow_get_by_user_id s uid).bind Follow.last_artwork_date

/-- Store obtained by creating Follow rows for a list of unseen users. -/
def createFollows (s : Store) (l : List UserPreview) (now : Time) : Store :=
  { s with follows := s.follows ++ l.map (createdFollow now) }

/-- Post date of the first dated item the backfill traversal can observe:
the first item with a `create_date` before any empty page. -/
def first_dated_date : List (List Item) → Option Time
  | [] => none
  | p :: rest =>
    if p.isEmpty then none
    else
      match p.find? (fun it => it.create_date.isSome) with
      | some it => it.create_date
      | none => first_dated_date rest

/-- Item fixture for the concrete instantiations below: a single-page
illustration without tags. -/
def mkItem (id uid : Nat) (d : Option Time) : Item :=
  { id := id
    title := "w"
    user_id := uid
    user_name := "creator"
    user_avatar := none
    create_date := d
    typ := "illust"
    tags := []
    page_count := 1
    has_meta_pages := false
    total_bookmarks := 0
    total_view := 0 }

/-- Artwork row fixture for the concrete instantiations below. -/
def mkArtwork (rid iid pageIndex : Nat) (ct : String) (pd lu : Option Time) :
    Artwork :=
  { rid := rid
    illust_id := iid
    title := "w"
    author_id := 1
    author_name := "creator"
    page_index := pageIndex
    page_count := 1
    total_bookmarks := 0
    total_view := 0
    post_date := pd
    is_valid := true
    collect_type := ct
    last_updated_at := lu }

/-- Follow row fixture for the concrete instantiations below. -/
def mkFollow (uid : Nat) (lc la : Option Time) : Follow :=
  { user_id := uid
    user_name := "creator"
    avatar_url := none
    first_collect_date := some 1
    last_collect_date := lc
    last_artwork_date := la }

theorem artworkKey_artworkOfData (rid : Nat) (d : ArtworkData) :
    artworkKey (artworkOfData rid d) = (d.illust_id, d.page_index) := rfl

theorem get_by_eq_none_iff (s : Store) (i p : Nat) :
    get_by_illust_id_and_page s i p = none ↔
      (i, p) ∉ s.artworks.map artworkKey := by
  simp only [get_by_illust_id_and_page, List.find?_eq_none, List.mem_map,
    Bool.and_eq_true, beq_iff_eq, artworkKey, not_exists, not_and]
  constructor
  · intro h a ha hk
    have := h a ha
    rw [Prod.ext_iff] at hk
    exact this hk.1 hk.2
  · intro h a ha h1 h2
    exact h a ha (by rw [Prod.ext_iff]; exact ⟨h1, h2⟩)

theorem get_by_eq_some_mem {s : Store} {i p : Nat} {a : Artwork}
    (h : get_by_illust_id_and_page s i p = some a) :
    a ∈ s.artworks ∧ artworkKey a = (i, p) := by
  refine ⟨List.mem_of_find?_eq_some h, ?_⟩
  have := List.find?_some h
  simp only [Bool.and_eq_true, beq_iff_eq] at this
  rw [artworkKey, Prod.ext_iff]
  exact this

theorem get_by_of_artworks_append {s : Store} {ex : List Artwork}
    {s2 : Store} (hs : s2.artworks = s.artworks ++ ex) {i p : Nat}
    {a : Artwork} (h : get_by_illust_id_and_page s i p = some a) :
    get_by_illust_id_and_page s2 i p = some a := by
  simp only [get_by_illust_id_and_page] at h ⊢
  rw [hs, List.find?_append, h]
  rfl

theorem batch_create_loop_shape (s0 : Store) (l : List ArtworkData) :
    ∀ (s : Store) (n : Nat),
      ∃ ex, (batch_create_loop s0 l s n).1.artworks = s.artworks ++ ex ∧
        (batch_create_loop s0 l s n).1.follows = s.follows ∧
        ∀ a ∈ ex, artworkKey a ∉ s0.artworks.map artworkKey := by
  induction l with
  | nil => intro s n; exact ⟨[], by simp [batch_create_loop]⟩
  | cons d rest ih =>
    intro s n
    rw [batch_create_loop]
    cases hfind : get_by_illust_id_and_page s0 d.illust_id d.page_index with
    | some a => exact ih s n
    | none =>
      obtain ⟨ex, h1, h2, h3⟩ := ih
        { s with
            artworks := s.artworks ++ [artworkOfData s.nextRid d]
            nextRid := s.nextRid + 1 } (n + 1)
      refine ⟨[artworkOfData s.nextRid d] ++ ex, by simpa using h1, h2, ?_⟩
      intro a ha
      rcases List.mem_append.mp ha with ha | ha
      · simp only [List.mem_singleton] at ha
        subst ha
        rw [artworkKey_artworkOfData]
        exact (get_by_eq_none_iff s0 _ _).mp hfind
      · exact h3 a ha

theorem batch_create_loop_keys_eq (s0 : Store) (l : List ArtworkData) :
    ∀ (s : Store) (n : Nat),
      (batch_create_loop s0 l s n).1.artworks.map artworkKey =
        s.artworks.map artworkKey ++
          (l.filter fun x =>
            (get_by_illust_id_and_page s0 x.illust_id
              x.page_index).isNone).map
            fun x => (x.illust_id, x.page_index) := by
  induction l with
  | nil => intro s n; simp [batch_create_loop]
  | cons d rest ih =>
    intro s n
    rw [batch_create_loop]
    cases hfind : get_by_illust_id_and_page s0 d.illust_id d.page_index with
    | some a =>
      have hfilter : (d :: rest).filter (fun x =>
          (get_by_illust_id_and_page s0 x.illust_id x.page_index).isNone) =
          rest.filter fun x =>
            (get_by_illust_id_and_page s0 x.illust_id
              x.page_index).isNone := by
        simp [List.filter_cons, hfind]
      rw [hfilter]
      exact ih s n
    | none =>
      have hfilter : (d :: rest).filter (fun x =>
          (get_by_illust_id_and_page s0 x.illust_id x.page_index).isNone) =
          d :: rest.filter fun x =>
            (get_by_illust_id_and_page s0 x.illust_id
              x.page_index).isNone := by
        simp [List.filter_cons, hfind]
      rw [hfilter,
        ih { s with
            artworks := s.artworks ++ [artworkOfData s.nextRid d]
            nextRid := s.nextRid + 1 } (n + 1)]
      simp [artworkKey_artworkOfData, List.append_assoc]

theorem batch_create_loop_get_by (s0 : Store) (l : List ArtworkData)
    (s : Store) (n : Nat) {i p : Nat} {a : Artwork}
    (h : get_by_illust_id_and_page s i p = some a) :
    get_by_illust_id_and_page (batch_create_loop s0 l s n).1 i p = some a := by
  obtain ⟨ex, h1, -, -⟩ := batch_create_loop_shape s0 l s n
  exact get_by_of_artworks_append h1 h

theorem batch_create_shape (s : Store) (l : List ArtworkData) :
    ∃ ex, (batch_create s l).1.artworks = s.artworks ++ ex ∧
      (batch_create s l).1.follows = s.follows ∧
      ∀ a ∈ ex, artworkKey a ∉ s.artworks.map artworkKey :=
  batch_create_loop_shape s l s 0

theorem batch_create_unique_of_nodup (s : Store) (l : List ArtworkData)
    (h : UniqueKeys s.artworks)
    (hl : ((l.filter fun x =>
        (get_by_illust_id_and_page s x.illust_id x.page_index).isNone).map
      fun x => (x.illust_id, x.page_index)).Nodup) :
    UniqueKeys (batch_create s l).1.artworks := by
  rw [UniqueKeys, batch_create, batch_create_loop_keys_eq s l s 0,
    List.nodup_append]
  refine ⟨h, hl, ?_⟩
  intro k hk1 hk2
  obtain ⟨x, hx, hkx⟩ := List.mem_map.mp hk2
  have hnone : get_by_illust_id_and_page s x.illust_id x.page_index = none :=
    by simpa using List.of_mem_filter hx
  have hfresh : (x.illust_id, x.page_index) ∉ s.artworks.map artworkKey :=
    (get_by_eq_none_iff s _ _).mp hnone
  exact absurd hk1 (hkx ▸ hfresh)

theorem batch_create_get_by {s : Store} (l : List ArtworkData) {i p : Nat}
    {a : Artwork} (h : get_by_illust_id_and_page s i p = some a) :
    get_by_illust_id_and_page (batch_create s l).1 i p = some a :=
  batch_create_loop_get_by s l s 0 h

theorem save_artwork_loop_shape (lt : String) (l : List ArtworkData) :
    ∀ (s : Store) (n : Nat),
      ∃ ex, (save_artwork_loop lt l s n).1.artworks = s.artworks ++ ex ∧
        (save_artwork_loop lt l s n).1.follows = s.follows ∧
        ∀ a ∈ ex, artworkKey a ∉ s.artworks.map artworkKey := by
  induction l with
  | nil => intro s n; exact ⟨[], by simp [save_artwork_loop]⟩
  | cons d rest ih =>
    intro s n
    rw [save_artwork_loop]
    cases hfind : get_by_illust_id_and_page s d.illust_id d.page_index with
    | some a => simp only [hfind]; exact ih s n
    | none =>
      simp only [hfind]
      obtain ⟨ex, h1, h2, h3⟩ := ih
        { s with
            artworks :=
              s.artworks ++
                [artworkOfData s.nextRid { d with collect_type := lt }]
            nextRid := s.nextRid + 1 } (n + 1)
      refine
        ⟨[artworkOfData s.nextRid { d with collect_type := lt }] ++ ex,
          by simpa using h1, h2, ?_⟩
      intro a ha
      rcases List.mem_append.mp ha with ha | ha
      · simp only [List.mem_singleton] at ha
        subst ha
        rw [artworkKey_artworkOfData]
        exact (get_by_eq_none_iff s _ _).mp hfind
      · intro hc
        exact h3 a ha (by
          simp only [List.map_append]
          exact List.mem_append_left _ hc)

theorem artwork_update_keys (s : Store) (rid : Nat) {f : Artwork → Artwork}
    (hf : ∀ a, artworkKey (f a) = artworkKey a) :
    (artwork_update s rid f).artworks.map artworkKey =
      s.artworks.map artworkKey := by
  simp only [artwork_update, List.map_map]
  refine List.map_congr_left ?_
  intro a _
  by_cases h : a.rid = rid <;> simp [h, hf]

theorem artwork_update_follows (s : Store) (rid : Nat) (f : Artwork → Artwork) :
    (artwork_update s rid f).follows = s.follows := rfl

theorem follow_create_artworks (s : Store) (f : Follow) :
    (follow_create s f).artworks = s.artworks := rfl

theorem follow_update_artworks (s : Store) (u : Nat) (f : Follow → Follow) :
    (follow_update s u f).artworks = s.artworks := rfl

theorem find?_map_pred {α : Type} (g : α → α) (p : α → Bool)
    (hg : ∀ a, p (g a) = p a) :
    ∀ l : List α, (l.map g).find? p = (l.find? p).map g := by
  intro l
  induction l with
  | nil => rfl
  | cons a rest ih =>
    simp only [List.map_cons, List.find?_cons]
    rw [hg a]
    cases hp : p a
    · exact ih
    · rfl

theorem get_by_artwork_update {s : Store} (rid : Nat) (f : Artwork → Artwork)
    (hf : ∀ a, (f a).illust_id = a.illust_id ∧ (f a).page_index = a.page_index)
    (i p : Nat) :
    get_by_illust_id_and_page (artwork_update s rid f) i p =
      (get_by_illust_id_and_page s i p).map
        fun a => if a.rid == rid then f a else a := by
  simp only [get_by_illust_id_and_page, artwork_update]
  refine find?_map_pred _ _ ?_ s.artworks
  intro a
  by_cases h : a.rid = rid <;> simp [h, (hf a).1, (hf a).2]

theorem sync_follows_users_artworks (now : Time) (l : List UserPreview) :
    ∀ (s : Store) (n : Nat),
      (sync_follows_users now l s n).1.artworks = s.artworks := by
  induction l with
  | nil => intro s n; rfl
  | cons u rest ih =>
    intro s n
    rw [sync_follows_users]
    cases hf : follow_get_by_user_id s u.user_id with
    | none => exact ih _ _
    | some f => rfl

theorem sync_follows_pages_artworks (now : Time)
    (pages : List (List UserPreview)) :
    ∀ (s : Store) (n : Nat),
      (sync_follows_pages now pages s n).1.artworks = s.artworks := by
  induction pages with
  | nil => intro s n; rfl
  | cons p rest ih =>
    intro s n
    rw [sync_follows_pages]
    by_cases hp : p.isEmpty
    · simp only [hp, if_true]
    · simp only [hp, if_false]
      rcases he : sync_follows_users now p s n with ⟨s1, n1, more⟩
      have hs1 : s1.artworks = s.artworks := by
        have := sync_follows_users_artworks now p s n
        rw [he] at this
        exact this
      cases more
      · simpa using hs1
      · by_cases hr : rest.isEmpty
        · simpa [hr] using hs1
        · simp only [hr, if_false, if_true]
          rcases h2 : sync_follows_pages now rest s1 n1 with ⟨s2, n2, c⟩
          have := ih s1 n1
          rw [h2] at this
          simpa using this.trans hs1

theorem collect_single_user_artworks_store (s : Store) (f : Follow) (y : Int)
    (pages : List (List Item)) (now : Time) :
    (collect_single_user_artworks s f y pages now).1.artworks =
      (batch_create s
        (backfill_pages y (now - y * 365 * secondsPerDay) pages
          (backfill_init (now - y * 365 * secondsPerDay))).artworks_list).1.artworks := by
  rw [collect_single_user_artworks]
  cases hl :
      (backfill_pages y (now - y * 365 * secondsPerDay) pages
        (backfill_init (now - y * 365 * secondsPerDay))).last_artwork_date with
  | none => simp [hl]
  | some d => simp [hl, follow_update_artworks]

theorem collect_single_user_artworks_shape (s : Store) (f : Follow) (y : Int)
    (pages : List (List Item)) (now : Time) :
    ∃ ex, (collect_single_user_artworks s f y pages now).1.artworks =
      s.artworks ++ ex ∧
      ∀ a ∈ ex, artworkKey a ∉ s.artworks.map artworkKey := by
  obtain ⟨ex, h1, -, h3⟩ :=
    batch_create_shape s
      (backfill_pages y (now - y * 365 * secondsPerDay) pages
        (backfill_init (now - y * 365 * secondsPerDay))).artworks_list
  exact ⟨ex, (collect_single_user_artworks_store s f y pages now).trans h1, h3⟩

theorem collect_single_user_artworks_get_by {s : Store} (f : Follow) (y : Int)
    (pages : List (List Item)) (now : Time) {i p : Nat} {a : Artwork}
    (h : get_by_illust_id_and_page s i p = some a) :
    get_by_illust_id_and_page (collect_single_user_artworks s f y pages now).1
      i p = some a := by
  obtain ⟨ex, h1, -⟩ := collect_single_user_artworks_shape s f y pages now
  exact get_by_of_artworks_append h1 h

theorem should_process_artwork_artworks (s : Store) (it : Item) :
    (should_process_artwork s it).1.artworks = s.artworks ∨
      ∃ a, get_by_illust_id_and_page s it.id 0 = some a ∧
        (should_process_artwork s it).1 =
          artwork_update s a.rid
            fun b => { b with collect_type := "follow_new_works" } := by
  rw [should_process_artwork]
  cases hg : get_by_illust_id_and_page s it.id 0 with
  | none => exact Or.inl rfl
  | some a =>
    by_cases h1 : a.collect_type = "follow_new_works" ∨
        a.collect_type = "follow_user_artworks"
    · refine Or.inl ?_
      simp [h1]
    · by_cases h2 : a.collect_type = "daily_rank" ∨
          a.collect_type = "weekly_rank" ∨
          a.collect_type = "monthly_rank" ∨
          a.collect_type = "ranking_works"
      · refine Or.inr ⟨a, rfl, ?_⟩
        simp [h1, h2]
      · refine Or.inl ?_
        simp [h1, h2]

theorem should_process_artwork_keys (s : Store) (it : Item) :
    (should_process_artwork s it).1.artworks.map artworkKey =
      s.artworks.map artworkKey := by
  rcases should_process_artwork_artworks s it with h | ⟨a, -, h⟩
  · rw [h]
  · rw [h]
    exact artwork_update_keys s a.rid fun b => rfl

theorem should_process_artwork_get_by {s : Store} (it : Item) {x p : Nat}
    {r : Artwork} (hr : r.collect_type = "follow_new_works")
    (h : get_by_illust_id_and_page s x p = some r) :
    get_by_illust_id_and_page (should_process_artwork s it).1 x p = some r := by
  rcases should_process_artwork_artworks s it with h1 | ⟨a, -, h1⟩
  · rw [get_by_illust_id_and_page] at h ⊢
    rw [h1]
    exact h
  · rw [h1,
      get_by_artwork_update a.rid
        (fun b => { b with collect_type := "follow_new_works" })
        (fun b => ⟨rfl, rfl⟩) x p,
      h]
    have hmap : (Option.some r).map
        (fun b => if b.rid == a.rid then
          { b with collect_type := "follow_new_works" } else b) =
        some (if r.rid == a.rid then
          { r with collect_type := "follow_new_works" } else r) := rfl
    rw [hmap]
    by_cases hb : r.rid = a.rid
    · rw [if_pos (by simpa using hb)]
      cases r
      simp only at hr
      simp [hr]
    · rw [if_neg (by simpa using hb)]

theorem process_user_eq_found {userFeed : Nat → List (List Item)} {s : Store}
    {it : Item} {f : Follow} {y : Int} {now : Time} {inst : Follow}
    (hg : follow_get_by_user_id s it.user_id = some inst) :
    process_user_from_artwork userFeed s it (some f) y now =
      match raised_last_artwork_date inst it with
      | none => none
      | some nl => some (follow_item_update s it nl now, false, 0) := by
  unfold process_user_from_artwork
  rw [hg]

theorem process_user_eq_missing {userFeed : Nat → List (List Item)}
    {s : Store} {it : Item} {f : Follow} {y : Int} {now : Time}
    (hg : follow_get_by_user_id s it.user_id = none) :
    process_user_from_artwork userFeed s it (some f) y now =
      some (s, false, 0) := by
  unfold process_user_from_artwork
  rw [hg]

theorem process_user_eq_new (userFeed : Nat → List (List Item)) (s : Store)
    (it : Item) (y : Int) (now : Time) :
    process_user_from_artwork userFeed s it none y now =
      some
        ((collect_single_user_artworks
            (follow_create s (follow_of_item it now)) (follow_of_item it now)
            y (userFeed it.user_id) now).1,
          true,
          (collect_single_user_artworks
            (follow_create s (follow_of_item it now)) (follow_of_item it now)
            y (userFeed it.user_id) now).2) := rfl

theorem process_user_from_artwork_cases
    {userFeed : Nat → List (List Item)} {s : Store} {it : Item}
    {follow? : Option Follow} {y : Int} {now : Time}
    {s1 : Store} {b : Bool} {k : Nat}
    (hres : process_user_from_artwork userFeed s it follow? y now =
      some (s1, b, k)) :
    s1.artworks = s.artworks ∨
      ∃ nf, s1 =
        (collect_single_user_artworks (follow_create s nf) nf y
          (userFeed it.user_id) now).1 := by
  cases follow? with
  | some f =>
    cases hg : follow_get_by_user_id s it.user_id with
    | none =>
        rw [process_user_eq_missing hg] at hres
        simp only [Option.some.injEq, Prod.mk.injEq] at hres
        exact Or.inl (by rw [← hres.1])
    | some inst =>
        rw [process_user_eq_found hg] at hres
        cases hnl : raised_last_artwork_date inst it with
        | none => rw [hnl] at hres; exact absurd hres (by simp)
        | some nl =>
            rw [hnl] at hres
            simp only [Option.some.injEq, Prod.mk.injEq] at hres
            refine Or.inl ?_
            rw [← hres.1]
            exact follow_update_artworks s it.user_id _
  | none =>
    rw [process_user_eq_new] at hres
    simp only [Option.some.injEq, Prod.mk.injEq] at hres
    exact Or.inr ⟨_, hres.1.symm⟩

theorem process_user_from_artwork_get_by
    {userFeed : Nat → List (List Item)} {s : Store} {it : Item}
    {follow? : Option Follow} {y : Int} {now : Time}
    {s1 : Store} {b : Bool} {k : Nat}
    (hres : process_user_from_artwork userFeed s it follow? y now =
      some (s1, b, k)) {i p : Nat} {a : Artwork}
    (h : get_by_illust_id_and_page s i p = some a) :
    get_by_illust_id_and_page s1 i p = some a := by
  rcases process_user_from_artwork_cases hres with h1 | ⟨nf, h1⟩
  · rw [get_by_illust_id_and_page] at h ⊢
    rw [h1]
    exact h
  · rw [h1]
    exact collect_single_user_artworks_get_by nf y (userFeed it.user_id) now h

theorem process_single_artwork_eq (userFeed : Nat → List (List Item))
    (y : Int) (s : Store) (it : Item) (now : Time) :
    process_single_artwork userFeed y s it now =
      match process_user_from_artwork userFeed s it
          (follow_get_by_user_id s it.user_id) y now with
      | none => none
      | some (s1, is_new, backlog) =>
          some
            (s1,
              (parse_artwork it).map fun d =>
                { d with collect_type := "follow_new_works" },
              if is_new then 1 else 0, backlog) := rfl

theorem process_single_artwork_cases
    {userFeed : Nat → List (List Item)} {y : Int} {s : Store} {it : Item}
    {now : Time} {s1 : Store} {arts : List ArtworkData} {nu bl : Nat}
    (hres : process_single_artwork userFeed y s it now =
      some (s1, arts, nu, bl)) :
    ∃ b k, process_user_from_artwork userFeed s it
        (follow_get_by_user_id s it.user_id) y now = some (s1, b, k) := by
  rw [process_single_artwork_eq] at hres
  cases hp : process_user_from_artwork userFeed s it
      (follow_get_by_user_id s it.user_id) y now with
  | none => rw [hp] at hres; exact absurd hres (by simp)
  | some r =>
      rw [hp] at hres
      rcases r with ⟨s2, b, k⟩
      simp only [Option.some.injEq, Prod.mk.injEq] at hres
      obtain ⟨h1, -, -, -⟩ := hres
      subst h1
      exact ⟨b, k, rfl⟩

theorem process_single_artwork_get_by
    {userFeed : Nat → List (List Item)} {y : Int} {s : Store} {it : Item}
    {now : Time} {s1 : Store} {arts : List ArtworkData} {nu bl : Nat}
    (hres : process_single_artwork userFeed y s it now =
      some (s1, arts, nu, bl)) {i p : Nat} {a : Artwork}
    (h : get_by_illust_id_and_page s i p = some a) :
    get_by_illust_id_and_page s1 i p = some a := by
  obtain ⟨b, k, hp⟩ := process_single_artwork_cases hres
  exact process_user_from_artwork_get_by hp h

theorem process_follow_works_items_get_by
    (userFeed : Nat → List (List Item)) (y : Int) (now : Time)
    (l : List Item) {x p : Nat} {r : Artwork}
    (hr : r.collect_type = "follow_new_works") :
    ∀ (s : Store) (arts : List ArtworkData) (nu bl : Nat) (hm : Bool),
      get_by_illust_id_and_page s x p = some r →
      get_by_illust_id_and_page
        (process_follow_works_items userFeed y now l s arts nu bl hm).store
        x p = some r := by
  induction l with
  | nil => intro s arts nu bl hm h; exact h
  | cons it rest ih =>
    intro s arts nu bl hm h
    rw [process_follow_works_items]
    have h1 : get_by_illust_id_and_page (should_process_artwork s it).1 x p =
        some r := should_process_artwork_get_by it hr h
    cases hc : (should_process_artwork s it).2 with
    | false => simpa [hc] using h1
    | true =>
      simp only [hc, Bool.not_true, Bool.false_eq_true, if_false]
      cases hp : process_single_artwork userFeed y
          (should_process_artwork s it).1 it now with
      | none => exact ih _ _ _ _ _ h1
      | some q =>
          rcases q with ⟨s2, newArts, isNew, backlog⟩
          exact ih _ _ _ _ _ (process_single_artwork_get_by hp h1)

theorem collect_follow_works_pages_get_by
    (userFeed : Nat → List (List Item)) (y : Int) (now : Time)
    (pages : List (List Item)) {x p : Nat} {r : Artwork}
    (hr : r.collect_type = "follow_new_works") :
    ∀ (s : Store) (arts : List ArtworkData) (nu bl : Nat),
      get_by_illust_id_and_page s x p = some r →
      get_by_illust_id_and_page
        (collect_follow_works_pages userFeed y now pages s arts nu bl).1
        x p = some r := by
  induction pages with
  | nil => intro s arts nu bl h; exact h
  | cons page rest ih =>
    intro s arts nu bl h
    rw [collect_follow_works_pages]
    by_cases hp : page.isEmpty
    · simpa [hp] using h
    · simp only [hp, if_false]
      have h1 := process_follow_works_items_get_by userFeed y now page hr s
        [] 0 0 true h
      cases hm :
          (process_follow_works_items userFeed y now page s [] 0 0
            true).has_more with
      | false => simpa [hm] using h1
      | true => simpa [hm] using ih _ _ _ _ h1

theorem update_artworks_fold_keys (detail : Nat → Option Item) (now : Time)
    (l : List Artwork) :
    ∀ (s : Store) (n : Nat),
      (update_artworks_fold detail now l (s, n)).1.artworks.map artworkKey =
        s.artworks.map artworkKey := by
  induction l with
  | nil => intro s n; rfl
  | cons a rest ih =>
    intro s n
    rw [update_artworks_fold]
    cases hd : detail a.illust_id with
    | none => exact ih s n
    | some it =>
      by_cases hch : (it.total_bookmarks != a.total_bookmarks ||
          it.total_view != a.total_view) = true
      · simp only [hch, if_true]
        rw [ih]
        exact artwork_update_keys s a.rid fun b => rfl
      · simp only [hch, if_false]
        exact ih s n

theorem KeysExtend.rfl (s : Store) : KeysExtend s s := ⟨[], by simp, by simp⟩

theorem KeysExtend.trans {s1 s2 s3 : Store} (h1 : KeysExtend s1 s2)
    (h2 : KeysExtend s2 s3) : KeysExtend s1 s3 := by
  obtain ⟨ex1, he1, hf1⟩ := h1
  obtain ⟨ex2, he2, hf2⟩ := h2
  refine ⟨ex1 ++ ex2, by rw [he2, he1, List.append_assoc], ?_⟩
  intro k hk
  rcases List.mem_append.mp hk with hk | hk
  · exact hf1 k hk
  · intro hc
    exact hf2 k hk (by rw [he1]; exact List.mem_append_left _ hc)

theorem KeysExtend.of_artworks_eq {s s2 : Store}
    (h : s2.artworks = s.artworks) : KeysExtend s s2 :=
  ⟨[], by simp [h], by simp⟩

theorem KeysExtend.of_keys_eq {s s2 : Store}
    (h : s2.artworks.map artworkKey = s.artworks.map artworkKey) :
    KeysExtend s s2 := ⟨[], by simp [h], by simp⟩

theorem KeysExtend.of_append_fresh {s s2 : Store} {ex : List Artwork}
    (h : s2.artworks = s.artworks ++ ex)
    (hf : ∀ a ∈ ex, artworkKey a ∉ s.artworks.map artworkKey) :
    KeysExtend s s2 := by
  refine ⟨ex.map artworkKey, by simp [h], ?_⟩
  intro k hk
  obtain ⟨a, ha, hka⟩ := List.mem_map.mp hk
  exact hka ▸ hf a ha

theorem count_zero_of_not_mem {α : Type} [DecidableEq α] {ex : List α}
    {k : α} (h : k ∉ ex) :
    @List.count α instBEqOfDecidableEq k ex = 0 := by
  exact List.count_eq_zero_of_not_mem h

theorem count_append_of_deq {α : Type} [DecidableEq α] (k : α)
    (l1 l2 : List α) :
    @List.count α instBEqOfDecidableEq k (l1 ++ l2) =
      @List.count α instBEqOfDecidableEq k l1 +
        @List.count α instBEqOfDecidableEq k l2 := by
  exact List.count_append k l1 l2

theorem KeysExtend.countKey_eq {s s2 : Store} (h : KeysExtend s s2)
    {k : Nat × Nat} (hk : k ∈ s.artworks.map artworkKey) :
    countKey s2.artworks k = countKey s.artworks k := by
  obtain ⟨ex, he, hf⟩ := h
  rw [countKey, countKey, he, count_append_of_deq k _ _,
    count_zero_of_not_mem fun hc => hf k hc hk, Nat.add_zero]

theorem batch_create_keys (s : Store) (l : List ArtworkData) :
    KeysExtend s (batch_create s l).1 := by
  obtain ⟨ex, h1, -, h3⟩ := batch_create_shape s l
  exact KeysExtend.of_append_fresh h1 h3

theorem save_artwork_loop_keys (lt : String) (l : List ArtworkData)
    (s : Store) (n : Nat) : KeysExtend s (save_artwork_loop lt l s n).1 := by
  obtain ⟨ex, h1, -, h3⟩ := save_artwork_loop_shape lt l s n
  exact KeysExtend.of_append_fresh h1 h3

theorem collect_single_user_artworks_keys (s : Store) (f : Follow) (y : Int)
    (pages : List (List Item)) (now : Time) :
    KeysExtend s (collect_single_user_artworks s f y pages now).1 := by
  obtain ⟨ex, h1, h3⟩ := collect_single_user_artworks_shape s f y pages now
  exact KeysExtend.of_append_fresh h1 h3

theorem process_user_from_artwork_keys
    {userFeed : Nat → List (List Item)} {s : Store} {it : Item}
    {follow? : Option Follow} {y : Int} {now : Time}
    {s1 : Store} {b : Bool} {k : Nat}
    (hres : process_user_from_artwork userFeed s it follow? y now =
      some (s1, b, k)) : KeysExtend s s1 := by
  rcases process_user_from_artwork_cases hres with h1 | ⟨nf, h1⟩
  · exact KeysExtend.of_artworks_eq h1
  · rw [h1]
    exact collect_single_user_artworks_keys (follow_create s nf) nf y
      (userFeed it.user_id) now

theorem process_single_artwork_keys
    {userFeed : Nat → List (List Item)} {y : Int} {s : Store} {it : Item}
    {now : Time} {s1 : Store} {arts : List ArtworkData} {nu bl : Nat}
    (hres : process_single_artwork userFeed y s it now =
      some (s1, arts, nu, bl)) : KeysExtend s s1 := by
  obtain ⟨b, k, hp⟩ := process_single_artwork_cases hres
  exact process_user_from_artwork_keys hp

theorem process_follow_works_items_keys
    (userFeed : Nat → List (List Item)) (y : Int) (now : Time)
    (l : List Item) :
    ∀ (s : Store) (arts : List ArtworkData) (nu bl : Nat) (hm : Bool),
      KeysExtend s
        (process_follow_works_items userFeed y now l s arts nu bl hm).store := by
  induction l with
  | nil => intro s arts nu bl hm; exact KeysExtend.rfl s
  | cons it rest ih =>
    intro s arts nu bl hm
    rw [process_follow_works_items]
    have h0 : KeysExtend s (should_process_artwork s it).1 :=
      KeysExtend.of_keys_eq (should_process_artwork_keys s it)
    cases hc : (should_process_artwork s it).2 with
    | false => simpa [hc] using h0
    | true =>
      simp only [hc, Bool.not_true, Bool.false_eq_true, if_false]
      cases hp : process_single_artwork userFeed y
          (should_process_artwork s it).1 it now with
      | none => exact h0.trans (ih _ _ _ _ _)
      | some r =>
          rcases r with ⟨s2, newArts, isNew, backlog⟩
          exact (h0.trans (process_single_artwork_keys hp)).trans (ih _ _ _ _ _)

theorem collect_follow_works_pages_keys
    (userFeed : Nat → List (List Item)) (y : Int) (now : Time)
    (pages : List (List Item)) :
    ∀ (s : Store) (arts : List ArtworkData) (nu bl : Nat),
      KeysExtend s
        (collect_follow_works_pages userFeed y now pages s arts nu bl).1 := by
  induction pages with
  | nil => intro s arts nu bl; exact KeysExtend.rfl s
  | cons page rest ih =>
    intro s arts nu bl
    rw [collect_follow_works_pages]
    by_cases hp : page.isEmpty
    · simpa [hp] using KeysExtend.rfl s
    · simp only [hp, if_false]
      have h1 := process_follow_works_items_keys userFeed y now page s [] 0 0
        true
      cases hm :
          (process_follow_works_items userFeed y now page s [] 0 0
            true).has_more with
      | false => simpa [hm] using h1
      | true => simpa [hm] using h1.trans (ih _ _ _ _)

theorem collect_follow_new_works_eq (userFeed : Nat → List (List Item))
    (s : Store) (y : Int) (pages : List (List Item)) (now : Time) :
    collect_follow_new_works userFeed s y pages now =
      ((batch_create
          (collect_follow_works_pages userFeed y now pages s [] 0 0).1
          (collect_follow_works_pages userFeed y now pages s [] 0 0).2.1).1,
        (batch_create
          (collect_follow_works_pages userFeed y now pages s [] 0 0).1
          (collect_follow_works_pages userFeed y now pages s [] 0 0).2.1).2,
        (collect_follow_works_pages userFeed y now pages s [] 0 0).2.2.1,
        (collect_follow_works_pages userFeed y now pages s [] 0 0).2.2.2) :=
  rfl

theorem update_artworks_eq (detail : Nat → Option Item) (s : Store)
    (now : Time) (days : Int) (maxRun : Nat) :
    update_artworks detail s now days maxRun =
      update_artworks_fold detail now
        (get_artworks_for_update s now (now - days * secondsPerDay) maxRun)
        (s, 0) := rfl

theorem applyStrategy_keys (r : StrategyRun) (s : Store) :
    KeysExtend s (applyStrategy r s) := by
  cases r with
  | rank items =>
    show KeysExtend s (collect_rank s items).1
    rw [collect_rank]
    by_cases hi : items.isEmpty
    · simpa [hi] using KeysExtend.rfl s
    · simp only [hi, if_false]
      exact batch_create_keys s _
  | syncFollows uid pages now =>
    show KeysExtend s (sync_follows s uid pages now).1
    rw [sync_follows]
    by_cases hu : (uid == 0) = true
    · simpa [hu] using KeysExtend.rfl s
    · rw [if_neg hu]
      exact KeysExtend.of_artworks_eq (sync_follows_pages_artworks now pages s 0)
  | backfill f y pages now =>
    exact collect_single_user_artworks_keys s f y pages now
  | followNewWorks userFeed y pages now =>
    show KeysExtend s (collect_follow_new_works userFeed s y pages now).1
    rw [collect_follow_new_works_eq]
    exact (collect_follow_works_pages_keys userFeed y now pages s [] 0 0).trans
      (batch_create_keys _ _)
  | metadataRefresh detail now days maxRun =>
    show KeysExtend s (update_artworks detail s now days maxRun).1
    rw [update_artworks_eq]
    exact KeysExtend.of_keys_eq (update_artworks_fold_keys detail now _ s 0)
  | saveAllPage lt it =>
    exact save_artwork_loop_keys lt (parse_artwork it) s 0

theorem applyStrategies_keys (runs : List StrategyRun) :
    ∀ s : Store, KeysExtend s (applyStrategies runs s) := by
  induction runs with
  | nil => intro s; exact KeysExtend.rfl s
  | cons r rest ih =>
    intro s
    exact (applyStrategy_keys r s).trans (ih (applyStrategy r s))

theorem countKey_eq_one_of_unique {l : List Artwork} {k : Nat × Nat}
    (h : UniqueKeys l) (hm : k ∈ l.map artworkKey) : countKey l k = 1 := by
  rw [countKey]
  exact List.count_eq_one_of_mem h hm

/-- C1 (counterexample): the batch session is created with autoflush off
and the artwork model has no unique constraint on the pair, so the
existence check of `batch_create` cannot see rows added earlier in the same
batch: a ranking feed carrying the same illust twice inserts two rows with
the key (7, 0), breaking the claimed global uniqueness. -/
theorem claim_C1_counterexample :
    UniqueKeys (Store.mk [] [] 0).artworks ∧
      countKey
          (applyStrategy
            (StrategyRun.rank [mkItem 7 1 (some 5), mkItem 7 1 (some 5)])
            (Store.mk [] [] 0)).artworks (7, 0) = 2 ∧
      ¬ UniqueKeys
          (applyStrategy
            (StrategyRun.rank [mkItem 7 1 (some 5), mkItem 7 1 (some 5)])
            (Store.mk [] [] 0)).artworks := by decide

/-- C1 (amended): the per-call existence check still dedups against every
row committed before the call, so across any sequence of strategy
executions a key already present in the store keeps exactly its current
row count — re-running a strategy against data already containing a work
never duplicates it — and one batch preserves distinct keys exactly when
the dictionaries surviving its dedup filter carry pairwise distinct
keys. -/
theorem claim_C1_amended :
    (∀ (runs : List StrategyRun) (s : Store),
        ∀ k ∈ s.artworks.map artworkKey,
          countKey (applyStrategies runs s).artworks k =
            countKey s.artworks k) ∧
      ∀ (s : Store) (l : List ArtworkData),
        UniqueKeys s.artworks →
        ((l.filter fun x =>
            (get_by_illust_id_and_page s x.illust_id
              x.page_index).isNone).map
          fun x => (x.illust_id, x.page_index)).Nodup →
        UniqueKeys (batch_create s l).1.artworks := by
  constructor
  · intro runs s k hk
    exact (applyStrategies_keys runs s).countKey_eq hk
  · intro s l h hl
    exact batch_create_unique_of_nodup s l h hl

theorem claim_C1_amended_witness :
    countKey
        (applyStrategies [StrategyRun.rank [mkItem 9 1 (some 5)]]
          (Store.mk [mkArtwork 0 50 0 "update_artworks" (some 0) (some 0)]
            [] 1)).artworks (50, 0) =
      countKey
        (Store.mk [mkArtwork 0 50 0 "update_artworks" (some 0) (some 0)]
          [] 1).artworks (50, 0) ∧
      UniqueKeys
        (batch_create
          (Store.mk [mkArtwork 0 7 0 "ranking_works" (some 0) (some 0)] [] 1)
          (parse_artwork (mkItem 7 1 (some 5)) ++
            parse_artwork (mkItem 8 1 (some 5)))).1.artworks :=
  ⟨claim_C1_amended.1 [StrategyRun.rank [mkItem 9 1 (some 5)]]
      (Store.mk [mkArtwork 0 50 0 "update_artworks" (some 0) (some 0)] [] 1)
      (50, 0) (by decide),
    claim_C1_amended.2
      (Store.mk [mkArtwork 0 7 0 "ranking_works" (some 0) (some 0)] [] 1)
      (parse_artwork (mkItem 7 1 (some 5)) ++
        parse_artwork (mkItem 8 1 (some 5)))
      (by decide) (by decide)⟩

/-- C3: at the failing input the spec expects the feed item whose existing
record has a metadata-refresh provenance to be skipped alone while the rest
of the page and the next page are still processed; the code instead halts
the whole sync: nothing is saved and the later items of the feed are never
recorded. -/
theorem claim_C3_other_provenance_halts_sync :
    (collect_follow_new_works (fun _ => [])
        (Store.mk [mkArtwork 0 1 0 "update_artworks" (some 0) (some 0)]
          [mkFollow 42 none none] 1)
        2
        [[mkItem 1 42 (some 100), mkItem 2 42 (some 50)],
          [mkItem 3 42 (some 40)]]
        1000).2.1 = 0 ∧
      get_by_illust_id_and_page
        (collect_follow_new_works (fun _ => [])
          (Store.mk [mkArtwork 0 1 0 "update_artworks" (some 0) (some 0)]
            [mkFollow 42 none none] 1)
          2
          [[mkItem 1 42 (some 100), mkItem 2 42 (some 50)],
            [mkItem 3 42 (some 40)]]
          1000).1 2 0 = none ∧
      get_by_illust_id_and_page
        (collect_follow_new_works (fun _ => [])
          (Store.mk [mkArtwork 0 1 0 "update_artworks" (some 0) (some 0)]
            [mkFollow 42 none none] 1)
          2
          [[mkItem 1 42 (some 100), mkItem 2 42 (some 50)],
            [mkItem 3 42 (some 40)]]
          1000).1 3 0 = none := by decide

/-- C8 counterexample: a credential whose stored expiry is 100 seconds away
is inside the five-minute margin the claim describes, so the claim requires
a refresh; the code reuses the cached credential because it only tests that
the expiry is strictly in the future. -/
theorem claim_C8_counterexample :
    (ensure_valid_token ⟨"a", "r", 5, some 1100⟩ ⟨"a", "r", 5⟩ 1000
        ⟨"na", "nr", 6⟩ true).2.2 = false ∧
      ¬ ((1000 : Int) < 1100 - 5 * 60) := by decide

/-- C8 (amended): the cached credential is reused exactly when a stored
expiry exists, now is strictly before it (with no margin) and the client
user id is nonempty; otherwise the refreshed pair is persisted together
with an expiry of now plus one hour, and the verification outcome never
changes the result. -/
theorem claim_C8_amended (cfg : TokenConfig) (client : TokenClient)
    (now : Time) (refreshed : TokenClient) (verify_ok : Bool) :
    ((ensure_valid_token cfg client now refreshed verify_ok).2.2 = false ↔
        ∃ e, cfg.token_expires_at = some e ∧ now < e ∧ client.user_id ≠ 0) ∧
      ((ensure_valid_token cfg client now refreshed verify_ok).2.2 = false →
        ensure_valid_token cfg client now refreshed verify_ok =
          (cfg, client, false)) ∧
      ((ensure_valid_token cfg client now refreshed verify_ok).2.2 = true →
        ensure_valid_token cfg client now refreshed verify_ok =
          ({ cfg with
              access_token := refreshed.access_token
              refresh_token := refreshed.refresh_token
              pixiv_user := refreshed.user_id
              token_expires_at := some (now + secondsPerHour) },
            refreshed, true)) ∧
      ensure_valid_token cfg client now refreshed true =
        ensure_valid_token cfg client now refreshed false := by
  cases he : cfg.token_expires_at with
  | none =>
    refine ⟨?_, ?_, ?_, ?_⟩ <;>
      simp [ensure_valid_token, he]
  | some e =>
    by_cases h1 : now < e
    · by_cases h2 : client.user_id = 0
      · refine ⟨?_, ?_, ?_, ?_⟩ <;>
          simp [ensure_valid_token, he, h1, h2]
      · refine ⟨?_, ?_, ?_, ?_⟩ <;>
          simp [ensure_valid_token, he, h1, h2]
    · refine ⟨?_, ?_, ?_, ?_⟩ <;>
        simp [ensure_valid_token, he, h1]

theorem claim_C8_amended_witness :
    ensure_valid_token ⟨"a", "r", 0, none⟩ ⟨"a", "r", 0⟩ 0 ⟨"n", "m", 7⟩
        true =
      (⟨"n", "m", 7, some 3600⟩, ⟨"n", "m", 7⟩, true) :=
  (claim_C8_amended ⟨"a", "r", 0, none⟩ ⟨"a", "r", 0⟩ 0 ⟨"n", "m", 7⟩
    true).2.2.1 (by decide)

/-- C9 counterexample: the metadata-refresh candidate query has no page
filter and bounds the post date, not the metadata age, by the configured
interval.  On this store it returns the page-one row and omits a valid
page-zero row whose metadata is far older than the interval (its post date
precedes now minus the interval). -/
theorem claim_C9_counterexample :
    get_artworks_for_update
        (Store.mk
          [mkArtwork 0 9 1 "update_artworks" (some 9900000) (some 5),
            mkArtwork 1 8 0 "update_artworks" (some 100) (some 5)]
          [] 2)
        10000000 (10000000 - 30 * secondsPerDay) 200 =
      [mkArtwork 0 9 1 "update_artworks" (some 9900000) (some 5)] ∧
      (mkArtwork 0 9 1 "update_artworks" (some 9900000) (some 5)).page_index ≠
        0 := by decide

/-- C9 (amended): the candidate set consists of at most the batch size of
rows that are valid, have a post date no older than the cutoff and a
`last_updated_at` before the start of the current day (any page index),
ordered by `last_updated_at` ascending; when the filtered set fits in the
batch size every such row is selected. -/
theorem claim_C9_amended (s : Store) (now cutoff : Time) (per : Nat) :
    (∀ a ∈ get_artworks_for_update s now cutoff per,
        a.is_valid = true ∧ sqlGe a.post_date cutoff = true ∧
          sqlLt a.last_updated_at (start_of_day now) = true ∧
          a ∈ s.artworks) ∧
      (get_artworks_for_update s now cutoff per).length ≤ per ∧
      List.Pairwise (fun a b => update_key a ≤ update_key b)
        (get_artworks_for_update s now cutoff per) ∧
      ∀ a ∈ s.artworks, a.is_valid = true → sqlGe a.post_date cutoff = true →
        sqlLt a.last_updated_at (start_of_day now) = true →
        (s.artworks.filter fun b =>
          b.is_valid && sqlGe b.post_date cutoff &&
            sqlLt b.last_updated_at (start_of_day now)).length ≤ per →
        a ∈ get_artworks_for_update s now cutoff per := by
  have hperm :=
    List.perm_insertionSort (fun a b => update_key a ≤ update_key b)
      (s.artworks.filter fun b =>
        b.is_valid && sqlGe b.post_date cutoff &&
          sqlLt b.last_updated_at (start_of_day now))
  refine ⟨?_, ?_, ?_, ?_⟩
  · intro a ha
    have h1 : a ∈ List.insertionSort (fun a b => update_key a ≤ update_key b)
        (s.artworks.filter fun b =>
          b.is_valid && sqlGe b.post_date cutoff &&
            sqlLt b.last_updated_at (start_of_day now)) :=
      List.mem_of_mem_take ha
    have h2 := hperm.mem_iff.mp h1
    have h3 := List.of_mem_filter h2
    simp only [Bool.and_eq_true] at h3
    exact ⟨h3.1.1, h3.1.2, h3.2, List.mem_of_mem_filter h2⟩
  · exact List.length_take_le per _
  · haveI : IsTotal Artwork (fun a b => update_key a ≤ update_key b) :=
      ⟨fun a b => le_total (update_key a) (update_key b)⟩
    haveI : IsTrans Artwork (fun a b => update_key a ≤ update_key b) :=
      ⟨fun a b c hab hbc => le_trans hab hbc⟩
    exact
      (List.sorted_insertionSort (fun a b => update_key a ≤ update_key b)
        _).sublist (List.take_sublist per _)
  · intro a ha hv hp hl hlen
    have hmem : a ∈ s.artworks.filter fun b =>
        b.is_valid && sqlGe b.post_date cutoff &&
          sqlLt b.last_updated_at (start_of_day now) := by
      refine List.mem_filter.mpr ⟨ha, ?_⟩
      simp [hv, hp, hl]
    have h1 : a ∈ List.insertionSort (fun a b => update_key a ≤ update_key b)
        (s.artworks.filter fun b =>
          b.is_valid && sqlGe b.post_date cutoff &&
            sqlLt b.last_updated_at (start_of_day now)) :=
      hperm.mem_iff.mpr hmem
    have hlen2 : (List.insertionSort (fun a b => update_key a ≤ update_key b)
        (s.artworks.filter fun b =>
          b.is_valid && sqlGe b.post_date cutoff &&
            sqlLt b.last_updated_at (start_of_day now))).length ≤ per := by
      rw [hperm.length_eq]
      exact hlen
    rw [get_artworks_for_update, List.take_of_length_le hlen2]
    exact h1

theorem claim_C9_amended_witness :
    mkArtwork 0 9 1 "update_artworks" (some 9900000) (some 5) ∈
      get_artworks_for_update
        (Store.mk [mkArtwork 0 9 1 "update_artworks" (some 9900000) (some 5)]
          [] 1)
        10000000 (10000000 - 30 * secondsPerDay) 200 :=
  (claim_C9_amended
      (Store.mk [mkArtwork 0 9 1 "update_artworks" (some 9900000) (some 5)]
        [] 1)
      10000000 (10000000 - 30 * secondsPerDay) 200).2.2.2
    (mkArtwork 0 9 1 "update_artworks" (some 9900000) (some 5)) (by decide)
    (by decide) (by decide) (by decide) (by decide)

theorem should_process_ranking {s : Store} {x : Item} {a : Artwork}
    (hget : get_by_illust_id_and_page s x.id 0 = some a)
    (hct : a.collect_type = "daily_rank" ∨ a.collect_type = "weekly_rank" ∨
      a.collect_type = "monthly_rank" ∨ a.collect_type = "ranking_works") :
    should_process_artwork s x =
      (artwork_update s a.rid
        fun b => { b with collect_type := "follow_new_works" }, true) := by
  rw [should_process_artwork, hget]
  rcases hct with h | h | h | h <;> simp [h]

theorem process_follow_works_items_cons_true
    {userFeed : Nat → List (List Item)} {y : Int} {now : Time} {it : Item}
    {rest : List Item} {s s1 : Store} {arts : List ArtworkData}
    {nu bl : Nat} {hm : Bool}
    (hsp : should_process_artwork s it = (s1, true)) :
    process_follow_works_items userFeed y now (it :: rest) s arts nu bl hm =
      match process_single_artwork userFeed y s1 it now with
      | none =>
          process_follow_works_items userFeed y now rest s1 arts nu bl hm
      | some (s2, newArts, isNew, backlog) =>
          process_follow_works_items userFeed y now rest s2 (arts ++ newArts)
            (nu + isNew) (bl + backlog) hm := by
  rw [process_follow_works_items, hsp]
  rfl

/-- C4: when the feed of a follow-new-works sync starts with an item whose
page-zero record exists with a ranking provenance, the existing row is
reclassified to `follow_new_works` in place: after the whole run there is
exactly one row with that key, it carries the `follow_new_works` provenance,
and processing the item leaves the pagination flag set (the sync does not
stop at it). -/
theorem claim_C4_reclassify_in_place (userFeed : Nat → List (List Item))
    (s : Store) (x : Item) (p1 : List Item) (rest : List (List Item))
    (y : Int) (now : Time) (a : Artwork)
    (hu : UniqueKeys s.artworks)
    (hget : get_by_illust_id_and_page s x.id 0 = some a)
    (hct : a.collect_type = "daily_rank" ∨ a.collect_type = "weekly_rank" ∨
      a.collect_type = "monthly_rank" ∨ a.collect_type = "ranking_works") :
    countKey
        (collect_follow_new_works userFeed s y ((x :: p1) :: rest)
          now).1.artworks (x.id, 0) = 1 ∧
      get_by_illust_id_and_page
          (collect_follow_new_works userFeed s y ((x :: p1) :: rest) now).1
          x.id 0 =
        some { a with collect_type := "follow_new_works" } ∧
      (process_follow_works_items userFeed y now [x] s [] 0 0
          true).has_more = true := by
  have hsp := should_process_ranking hget hct
  have hget1 : get_by_illust_id_and_page
      (artwork_update s a.rid
        fun b => { b with collect_type := "follow_new_works" }) x.id 0 =
      some { a with collect_type := "follow_new_works" } := by
    rw [get_by_artwork_update a.rid
        (fun b => { b with collect_type := "follow_new_works" })
        (fun b => ⟨rfl, rfl⟩) x.id 0,
      hget]
    have hmap : (Option.some a).map
        (fun b => if b.rid == a.rid then
          { b with collect_type := "follow_new_works" } else b) =
        some (if a.rid == a.rid then
          { a with collect_type := "follow_new_works" } else a) := rfl
    rw [hmap, if_pos (by simp)]
  have hr : ({ a with collect_type := "follow_new_works" } :
      Artwork).collect_type = "follow_new_works" := rfl
  have hfirst : get_by_illust_id_and_page
      (process_follow_works_items userFeed y now (x :: p1) s [] 0 0
        true).store x.id 0 =
      some { a with collect_type := "follow_new_works" } := by
    rw [process_follow_works_items_cons_true hsp]
    cases hp : process_single_artwork userFeed y
        (artwork_update s a.rid
          fun b => { b with collect_type := "follow_new_works" }) x now with
    | none =>
        exact process_follow_works_items_get_by userFeed y now p1 hr _ _ _ _ _
          hget1
    | some q =>
        rcases q with ⟨s2, newArts, isNew, backlog⟩
        exact process_follow_works_items_get_by userFeed y now p1 hr _ _ _ _ _
          (process_single_artwork_get_by hp hget1)
  have hpages : get_by_illust_id_and_page
      (collect_follow_works_pages userFeed y now ((x :: p1) :: rest) s [] 0
        0).1 x.id 0 =
      some { a with collect_type := "follow_new_works" } := by
    rw [collect_follow_works_pages]
    simp only [List.isEmpty_cons, Bool.false_eq_true, if_false]
    cases hm : (process_follow_works_items userFeed y now (x :: p1) s [] 0 0
        true).has_more with
    | false => simpa [hm] using hfirst
    | true =>
        simp only [hm, if_true]
        exact collect_follow_works_pages_get_by userFeed y now rest hr _ _ _ _
          hfirst
  have hk0 : (x.id, 0) ∈ s.artworks.map artworkKey := by
    obtain ⟨hmem, hkey⟩ := get_by_eq_some_mem hget
    exact hkey ▸ List.mem_map_of_mem artworkKey hmem
  have hkeep : KeysExtend s
      (collect_follow_new_works userFeed s y ((x :: p1) :: rest) now).1 :=
    applyStrategy_keys (.followNewWorks userFeed y ((x :: p1) :: rest) now) s
  have hfin : get_by_illust_id_and_page
      (collect_follow_new_works userFeed s y ((x :: p1) :: rest) now).1
      x.id 0 = some { a with collect_type := "follow_new_works" } := by
    rw [collect_follow_new_works_eq]
    exact batch_create_get_by _ hpages
  refine ⟨?_, hfin, ?_⟩
  · rw [hkeep.countKey_eq hk0]
    exact countKey_eq_one_of_unique hu hk0
  · rw [process_follow_works_items_cons_true hsp]
    cases hp : process_single_artwork userFeed y
        (artwork_update s a.rid
          fun b => { b with collect_type := "follow_new_works" }) x now with
    | none => rfl
    | some q => rcases q with ⟨s2, newArts, isNew, backlog⟩; rfl

theorem claim_C4_reclassify_in_place_witness :
    countKey
        (collect_follow_new_works (fun _ => [])
          (Store.mk [mkArtwork 0 1 0 "ranking_works" (some 0) (some 0)]
            [mkFollow 42 none none] 1)
          2 [[mkItem 1 42 (some 100)]] 1000).1.artworks ((mkItem 1 42
            (some 100)).id, 0) = 1 ∧
      get_by_illust_id_and_page
          (collect_follow_new_works (fun _ => [])
            (Store.mk [mkArtwork 0 1 0 "ranking_works" (some 0) (some 0)]
              [mkFollow 42 none none] 1)
            2 [[mkItem 1 42 (some 100)]] 1000).1
          (mkItem 1 42 (some 100)).id 0 =
        some { mkArtwork 0 1 0 "ranking_works" (some 0) (some 0) with
            collect_type := "follow_new_works" } ∧
      (process_follow_works_items (fun _ => []) 2 1000 [mkItem 1 42
          (some 100)]
          (Store.mk [mkArtwork 0 1 0 "ranking_works" (some 0) (some 0)]
            [mkFollow 42 none none] 1)
          [] 0 0 true).has_more = true :=
  claim_C4_reclassify_in_place (fun _ => [])
    (Store.mk [mkArtwork 0 1 0 "ranking_works" (some 0) (some 0)]
      [mkFollow 42 none none] 1)
    (mkItem 1 42 (some 100)) [] [] 2 1000
    (mkArtwork 0 1 0 "ranking_works" (some 0) (some 0)) (by decide)
    (by decide) (by decide)

theorem follow_get_eq_none_iff (s : Store) (uid : Nat) :
    follow_get_by_user_id s uid = none ↔
      ∀ f ∈ s.follows, f.user_id ≠ uid := by
  simp only [follow_get_by_user_id, List.find?_eq_none, beq_iff_eq]

theorem follow_get_eq_some_mem {s : Store} {uid : Nat} {f : Follow}
    (h : follow_get_by_user_id s uid = some f) :
    f ∈ s.follows ∧ f.user_id = uid := by
  refine ⟨List.mem_of_find?_eq_some h, ?_⟩
  have := List.find?_some h
  simpa using this

theorem follow_get_createFollows_none {s : Store} {l : List UserPreview}
    {now : Time} {uid : Nat} (h1 : follow_get_by_user_id s uid = none)
    (h2 : uid ∉ l.map UserPreview.user_id) :
    follow_get_by_user_id (createFollows s l now) uid = none := by
  rw [follow_get_eq_none_iff]
  intro f hf
  simp only [createFollows, List.mem_append] at hf
  rcases hf with hf | hf
  · exact (follow_get_eq_none_iff s uid).mp h1 f hf
  · obtain ⟨v, hv, he⟩ := List.mem_map.mp hf
    intro hc
    exact h2 (List.mem_map.mpr ⟨v, hv, by rw [← he] at hc; exact hc⟩)

theorem follow_get_createFollows_isSome {s : Store} {l : List UserPreview}
    {now : Time} {uid : Nat} (h : (follow_get_by_user_id s uid).isSome) :
    (follow_get_by_user_id (createFollows s l now) uid).isSome := by
  obtain ⟨f, hf⟩ := Option.isSome_iff_exists.mp h
  have : follow_get_by_user_id (createFollows s l now) uid = some f := by
    simp only [follow_get_by_user_id, createFollows] at hf ⊢
    rw [List.find?_append, hf]
    rfl
  rw [this]
  rfl

theorem follow_create_as_createFollows (s : Store) (u : UserPreview)
    (now : Time) :
    follow_create s (createdFollow now u) = createFollows s [u] now := rfl

theorem createFollows_append (s : Store) (l1 l2 : List UserPreview)
    (now : Time) :
    createFollows (createFollows s l1 now) l2 now =
      createFollows s (l1 ++ l2) now := by
  simp [createFollows]

theorem createFollows_nil (s : Store) (now : Time) :
    createFollows s [] now = s := by
  simp [createFollows]

theorem sync_follows_users_all_new (now : Time) (p : List UserPreview) :
    ∀ (s : Store) (n : Nat),
      (∀ v ∈ p, follow_get_by_user_id s v.user_id = none) →
      (p.map UserPreview.user_id).Nodup →
      sync_follows_users now p s n =
        (createFollows s p now, n + p.length, true) := by
  induction p with
  | nil => intro s n h1 h2; simp [sync_follows_users, createFollows_nil]
  | cons u rest ih =>
    intro s n h1 h2
    rw [sync_follows_users, h1 u (List.mem_cons_self u rest)]
    simp only [List.map_cons, List.nodup_cons] at h2
    have hall : ∀ v ∈ rest,
        follow_get_by_user_id (follow_create s (createdFollow now u))
          v.user_id = none := by
      intro v hv
      rw [follow_create_as_createFollows]
      refine follow_get_createFollows_none (h1 v (List.mem_cons_of_mem u hv))
        ?_
      simp only [List.map_cons, List.map_nil, List.mem_singleton]
      intro hc
      exact h2.1 (List.mem_map.mpr ⟨v, hv, hc⟩)
    rw [ih (follow_create s (createdFollow now u)) (n + 1) hall h2.2,
      follow_create_as_createFollows, createFollows_append]
    simp only [List.singleton_append, List.length_cons, Prod.mk.injEq]
    exact ⟨by simp, by omega, by simp⟩

theorem sync_follows_users_stop (now : Time) (q1 : List UserPreview)
    (u : UserPreview) (q2 : List UserPreview) :
    ∀ (s : Store) (n : Nat),
      (∀ v ∈ q1, follow_get_by_user_id s v.user_id = none) →
      (q1.map UserPreview.user_id).Nodup →
      (follow_get_by_user_id s u.user_id).isSome →
      sync_follows_users now (q1 ++ u :: q2) s n =
        (createFollows s q1 now, n + q1.length, false) := by
  induction q1 with
  | nil =>
    intro s n h1 h2 h3
    obtain ⟨f, hf⟩ := Option.isSome_iff_exists.mp h3
    rw [List.nil_append, sync_follows_users, hf]
    simp [createFollows_nil]
  | cons v rest ih =>
    intro s n h1 h2 h3
    rw [List.cons_append, sync_follows_users,
      h1 v (List.mem_cons_self v rest)]
    simp only [List.map_cons, List.nodup_cons] at h2
    have hall : ∀ w ∈ rest,
        follow_get_by_user_id (createFollows s [v] now) w.user_id = none := by
      intro w hw
      refine follow_get_createFollows_none
        (h1 w (List.mem_cons_of_mem v hw)) ?_
      simp only [List.map_cons, List.map_nil, List.mem_singleton]
      intro hc
      exact h2.1 (List.mem_map.mpr ⟨w, hw, hc⟩)
    rw [follow_create_as_createFollows,
      ih (createFollows s [v] now) (n + 1) hall h2.2
        (follow_get_createFollows_isSome h3),
      createFollows_append]
    simp only [List.singleton_append, List.length_cons, Prod.mk.injEq]
    exact ⟨by simp, by omega, by simp⟩

theorem sync_follows_pages_spec (now : Time) (q1 : List UserPreview)
    (u : UserPreview) (q2 : List UserPreview) (P2 : List (List UserPreview))
    (P1 : List (List UserPreview)) :
    ∀ (s : Store) (n : Nat),
      (∀ p ∈ P1, p ≠ []) →
      (∀ v ∈ P1.flatten ++ q1, follow_get_by_user_id s v.user_id = none) →
      ((P1.flatten ++ q1).map UserPreview.user_id).Nodup →
      (follow_get_by_user_id s u.user_id).isSome →
      sync_follows_pages now (P1 ++ (q1 ++ u :: q2) :: P2) s n =
        (createFollows s (P1.flatten ++ q1) now,
          n + (P1.flatten ++ q1).length, P1.length + 1) := by
  induction P1 with
  | nil =>
    intro s n hne hunseen hdistinct hknown
    simp only [List.flatten_nil, List.nil_append] at hunseen hdistinct ⊢
    have hempty : (q1 ++ u :: q2).isEmpty = false := by
      cases q1 <;> rfl
    rw [sync_follows_pages, hempty]
    simp only [Bool.false_eq_true, if_false]
    rw [sync_follows_users_stop now q1 u q2 s n hunseen hdistinct hknown]
    rfl
  | cons p P1 ih =>
    intro s n hne hunseen hdistinct hknown
    have hpne : p ≠ [] := hne p (List.mem_cons_self p P1)
    have hp : p.isEmpty = false := by
      cases hcp : p with
      | nil => exact absurd hcp hpne
      | cons a l => rfl
    rw [List.cons_append, sync_follows_pages, hp]
    simp only [Bool.false_eq_true, if_false]
    have hflat : (p :: P1).flatten = p ++ P1.flatten := rfl
    rw [hflat, List.append_assoc] at hunseen hdistinct
    rw [List.map_append, List.nodup_append] at hdistinct
    have hpun : ∀ v ∈ p, follow_get_by_user_id s v.user_id = none :=
      fun v hv => hunseen v (List.mem_append_left _ hv)
    rw [sync_follows_users_all_new now p s n hpun hdistinct.1]
    have hrest : (P1 ++ (q1 ++ u :: q2) :: P2).isEmpty = false := by
      cases P1 <;> rfl
    have hun : ∀ v ∈ P1.flatten ++ q1,
        follow_get_by_user_id (createFollows s p now) v.user_id = none := by
      intro v hv
      refine follow_get_createFollows_none
        (hunseen v (List.mem_append_right p hv)) ?_
      intro hc
      exact hdistinct.2.2 hc
        (List.mem_map_of_mem UserPreview.user_id hv)
    simp only [hrest, Bool.false_eq_true, if_false, if_true]
    rw [ih (createFollows s p now) (n + p.length)
      (fun q hq => hne q (List.mem_cons_of_mem p hq)) hun hdistinct.2.1
      (follow_get_createFollows_isSome hknown),
      createFollows_append]
    simp only [Prod.mk.injEq]
    refine ⟨by rw [List.flatten_cons, List.append_assoc], ?_, ?_⟩
    · simp only [List.flatten_cons, List.length_append]
      omega
    · simp [List.length_cons]

/-- C5: when the concatenated remote follow list has an already-known user
at some position and every earlier position holds a distinct unseen user,
the follow-list sync creates Follow rows for exactly the users before that
position, stops there (no row is created for any later position), and
fetches no page beyond the one containing that position. -/
theorem claim_C5_early_stop (s : Store) (uid : Nat) (now : Time)
    (P1 : List (List UserPreview)) (q1 : List UserPreview) (u : UserPreview)
    (q2 : List UserPreview) (P2 : List (List UserPreview))
    (huid : (uid == 0) = false)
    (hne : ∀ p ∈ P1, p ≠ [])
    (hunseen : ∀ v ∈ P1.flatten ++ q1,
      follow_get_by_user_id s v.user_id = none)
    (hdistinct : ((P1.flatten ++ q1).map UserPreview.user_id).Nodup)
    (hknown : (follow_get_by_user_id s u.user_id).isSome) :
    sync_follows s uid (P1 ++ (q1 ++ u :: q2) :: P2) now =
      (createFollows s (P1.flatten ++ q1) now,
        (P1.flatten ++ q1).length, P1.length + 1) := by
  rw [sync_follows, huid]
  simp only [Bool.false_eq_true, if_false]
  have := sync_follows_pages_spec now q1 u q2 P2 P1 s 0 hne hunseen hdistinct
    hknown
  simpa using this

theorem claim_C5_early_stop_witness :
    sync_follows (Store.mk [] [mkFollow 3 none none] 0) 9
        [[⟨1, "a", none⟩, ⟨2, "b", none⟩],
          [⟨3, "c", none⟩, ⟨4, "d", none⟩],
          [⟨5, "e", none⟩]] 777 =
      (createFollows (Store.mk [] [mkFollow 3 none none] 0)
          [⟨1, "a", none⟩, ⟨2, "b", none⟩] 777,
        2, 2) := by
  have := claim_C5_early_stop (Store.mk [] [mkFollow 3 none none] 0) 9 777
    [[⟨1, "a", none⟩, ⟨2, "b", none⟩]] [] ⟨3, "c", none⟩ [⟨4, "d", none⟩]
    [[⟨5, "e", none⟩]] (by decide) (by decide) (by decide) (by decide)
    (by decide)
  simpa using this

theorem lastOf_congr {s1 s2 : Store} (h : s1.follows = s2.follows)
    (uid : Nat) : lastOf s1 uid = lastOf s2 uid := by
  simp only [lastOf, follow_get_by_user_id, h]

theorem follow_get_follow_update (s : Store) (t uid : Nat)
    (g : Follow → Follow) (hg : ∀ x, (g x).user_id = x.user_id) :
    follow_get_by_user_id (follow_update s t g) uid =
      (follow_get_by_user_id s uid).map
        fun x => if x.user_id == t then g x else x := by
  simp only [follow_get_by_user_id, follow_update]
  refine find?_map_pred _ _ ?_ s.follows
  intro x
  by_cases h : x.user_id = t <;> simp [h, hg]

theorem follow_get_follow_create_other {s : Store} {nf : Follow} {uid : Nat}
    (h : nf.user_id ≠ uid) :
    follow_get_by_user_id (follow_create s nf) uid =
      follow_get_by_user_id s uid := by
  simp only [follow_get_by_user_id, follow_create, List.find?_append]
  cases hf : s.follows.find? fun f => f.user_id == uid with
  | some f => rfl
  | none =>
    have hb : (nf.user_id == uid) = false := by simp [h]
    simp [List.find?, hb]

theorem lastOf_follow_update_other {s : Store} {t uid : Nat}
    {g : Follow → Follow} (hg : ∀ x, (g x).user_id = x.user_id)
    (h : t ≠ uid) : lastOf (follow_update s t g) uid = lastOf s uid := by
  rw [lastOf, lastOf, follow_get_follow_update s t uid g hg]
  cases hx : follow_get_by_user_id s uid with
  | none => rfl
  | some x =>
    have hxu := (follow_get_eq_some_mem hx).2
    simp only [Option.map_some', Option.some_bind]
    rw [if_neg (by simp only [hxu, beq_iff_eq]; exact fun hc => h hc.symm)]

theorem lastOf_follow_update_self {s : Store} {t : Nat}
    {g : Follow → Follow} (hg : ∀ x, (g x).user_id = x.user_id)
    {x : Follow} (hx : follow_get_by_user_id s t = some x) :
    lastOf (follow_update s t g) t = (g x).last_artwork_date := by
  rw [lastOf, follow_get_follow_update s t t g hg, hx]
  have hxu := (follow_get_eq_some_mem hx).2
  simp only [Option.map_some', Option.some_bind]
  rw [if_pos (by simp [hxu])]

theorem lastOf_collect_single_other {s : Store} {f : Follow} {y : Int}
    {pages : List (List Item)} {now : Time} {uid : Nat}
    (h : f.user_id ≠ uid) :
    lastOf (collect_single_user_artworks s f y pages now).1 uid =
      lastOf s uid := by
  rw [collect_single_user_artworks]
  obtain ⟨ex, -, hfol, -⟩ := batch_create_shape s
    (backfill_pages y (now - y * 365 * secondsPerDay) pages
      (backfill_init (now - y * 365 * secondsPerDay))).artworks_list
  cases hlast : (backfill_pages y (now - y * 365 * secondsPerDay) pages
      (backfill_init (now - y * 365 * secondsPerDay))).last_artwork_date with
  | none =>
    simp only [hlast]
    exact lastOf_congr hfol uid
  | some d =>
    simp only [hlast]
    rw [lastOf_follow_update_other (by intro z; rfl) h]
    exact lastOf_congr hfol uid

theorem optTimeLe_refl (x : Option Time) : optTimeLe x x := by
  cases x
  · trivial
  · exact le_refl _

theorem raised_eq_nil {inst : Follow} {it : Item}
    (hp : parse_artwork it = []) :
    raised_last_artwork_date inst it = some inst.last_artwork_date := by
  rw [raised_last_artwork_date, hp]

theorem raised_eq_last_none {inst : Follow} {it : Item} {d0 : ArtworkData}
    {tl : List ArtworkData} (hp : parse_artwork it = d0 :: tl)
    (hl : inst.last_artwork_date = none) :
    raised_last_artwork_date inst it = some d0.post_date := by
  rw [raised_last_artwork_date, hp]
  show raised_aux inst.last_artwork_date d0.post_date = some d0.post_date
  rw [hl]
  rfl

theorem raised_eq_both_some {inst : Follow} {it : Item} {d0 : ArtworkData}
    {tl : List ArtworkData} {l a : Time} (hp : parse_artwork it = d0 :: tl)
    (hl : inst.last_artwork_date = some l) (hd : d0.post_date = some a) :
    raised_last_artwork_date inst it =
      some (if a > l then some a else some l) := by
  rw [raised_last_artwork_date, hp]
  show raised_aux inst.last_artwork_date d0.post_date =
    some (if a > l then some a else some l)
  rw [hl, hd]
  rfl

theorem raised_eq_post_none {inst : Follow} {it : Item} {d0 : ArtworkData}
    {tl : List ArtworkData} {l : Time} (hp : parse_artwork it = d0 :: tl)
    (hl : inst.last_artwork_date = some l) (hd : d0.post_date = none) :
    raised_last_artwork_date inst it = none := by
  rw [raised_last_artwork_date, hp]
  show raised_aux inst.last_artwork_date d0.post_date = none
  rw [hl, hd]
  rfl

theorem raised_le {inst : Follow} {it : Item} {nl : Option Time}
    (h : raised_last_artwork_date inst it = some nl) :
    optTimeLe inst.last_artwork_date nl := by
  cases hp : parse_artwork it with
  | nil =>
    have h2 := (raised_eq_nil hp).symm.trans h
    simp only [Option.some.injEq] at h2
    rw [← h2]
    exact optTimeLe_refl _
  | cons d0 tl =>
    cases hl : inst.last_artwork_date with
    | none => trivial
    | some l =>
      cases hd : d0.post_date with
      | none =>
        have h2 := (raised_eq_post_none hp hl hd).symm.trans h
        exact absurd h2 (by simp)
      | some a =>
        have h2 := (raised_eq_both_some hp hl hd).symm.trans h
        simp only [Option.some.injEq] at h2
        rw [← h2]
        by_cases hc : a > l
        · rw [if_pos hc]
          exact le_of_lt hc
        · rw [if_neg hc]
          exact le_refl l

/-- C2 counterexample: a single-creator backfill over a feed whose newest
work is older than the stored `lastArtworkDate` lowers that date: the code
assigns the maximum observed post date unconditionally. -/
theorem claim_C2_counterexample :
    lastOf (Store.mk [] [mkFollow 42 (some 90) (some 95000)] 0) 42 =
        some 95000 ∧
      lastOf
          (applyStrategy
            (StrategyRun.backfill (mkFollow 42 (some 90) (some 95000)) 0
              [[mkItem 7 42 (some 90000)]] 100000)
            (Store.mk [] [mkFollow 42 (some 90) (some 95000)] 0)) 42 =
        some 90000 ∧
      ¬ optTimeLe (some (95000 : Time)) (some (90000 : Time)) := by decide

/-- C2 (amended): the per-item creator update of the follow-new-works sync
never lowers any stored `lastArtworkDate`; the single-creator backfill
assigns the maximum post date observed in the run, which is a non-decrease
exactly when the stored value does not exceed that maximum (in particular
for a creator without a stored date), and leaves every date unchanged when
the run observed none. -/
theorem claim_C2_amended :
    (∀ (userFeed : Nat → List (List Item)) (s : Store) (it : Item) (y : Int)
        (now : Time) (s1 : Store) (b : Bool) (k : Nat),
      process_user_from_artwork userFeed s it
          (follow_get_by_user_id s it.user_id) y now = some (s1, b, k) →
      ∀ uid, optTimeLe (lastOf s uid) (lastOf s1 uid)) ∧
      ∀ (s : Store) (f : Follow) (y : Int) (pages : List (List Item))
        (now : Time),
        optTimeLe (lastOf s f.user_id)
          (backfill_pages y (now - y * 365 * secondsPerDay) pages
            (backfill_init
              (now - y * 365 * secondsPerDay))).last_artwork_date →
        ∀ uid, optTimeLe (lastOf s uid)
          (lastOf (collect_single_user_artworks s f y pages now).1 uid) := by
  have hbackfill : ∀ (s : Store) (f : Follow) (y : Int)
      (pages : List (List Item)) (now : Time),
      optTimeLe (lastOf s f.user_id)
        (backfill_pages y (now - y * 365 * secondsPerDay) pages
          (backfill_init
            (now - y * 365 * secondsPerDay))).last_artwork_date →
      ∀ uid, optTimeLe (lastOf s uid)
        (lastOf (collect_single_user_artworks s f y pages now).1 uid) := by
    intro s f y pages now hle uid
    rw [collect_single_user_artworks]
    obtain ⟨ex, -, hfol, -⟩ := batch_create_shape s
      (backfill_pages y (now - y * 365 * secondsPerDay) pages
        (backfill_init (now - y * 365 * secondsPerDay))).artworks_list
    cases hlast : (backfill_pages y (now - y * 365 * secondsPerDay) pages
        (backfill_init (now - y * 365 * secondsPerDay))).last_artwork_date with
    | none =>
      simp only [hlast]
      rw [lastOf_congr hfol uid]
      exact optTimeLe_refl _
    | some d =>
      simp only [hlast]
      rw [hlast] at hle
      by_cases he : f.user_id = uid
      · subst he
        cases hx : follow_get_by_user_id s f.user_id with
        | none =>
          rw [lastOf, hx]
          trivial
        | some x =>
          have hgb : follow_get_by_user_id
              (batch_create s
                (backfill_pages y (now - y * 365 * secondsPerDay) pages
                  (backfill_init
                    (now - y * 365 * secondsPerDay))).artworks_list).1
              f.user_id = some x := by
            simp only [follow_get_by_user_id, hfol]
            exact hx
          rw [lastOf_follow_update_self (by intro z; rfl) hgb]
          exact hle
      · rw [lastOf_follow_update_other (by intro z; rfl) he]
        rw [lastOf_congr hfol uid]
        exact optTimeLe_refl _
  refine ⟨?_, hbackfill⟩
  intro userFeed s it y now s1 b k hres uid
  cases hg : follow_get_by_user_id s it.user_id with
  | some inst =>
    rw [hg, process_user_eq_found hg] at hres
    cases hnl : raised_last_artwork_date inst it with
    | none => rw [hnl] at hres; exact absurd hres (by simp)
    | some nl =>
      rw [hnl] at hres
      simp only [Option.some.injEq, Prod.mk.injEq] at hres
      rw [← hres.1, follow_item_update]
      by_cases he : it.user_id = uid
      · subst he
        rw [lastOf_follow_update_self (by intro z; rfl) hg]
        rw [lastOf, hg]
        simp only [Option.some_bind]
        exact raised_le hnl
      · rw [lastOf_follow_update_other (by intro z; rfl) he]
        exact optTimeLe_refl _
  | none =>
    rw [hg, process_user_eq_new] at hres
    simp only [Option.some.injEq, Prod.mk.injEq] at hres
    rw [← hres.1]
    by_cases he : it.user_id = uid
    · have hnone : lastOf s uid = none := by
        rw [lastOf, ← he, hg]
        rfl
      rw [hnone]
      trivial
    · have h1 : lastOf
          (collect_single_user_artworks
            (follow_create s (follow_of_item it now)) (follow_of_item it now)
            y (userFeed it.user_id) now).1 uid =
          lastOf s uid := by
        rw [lastOf_collect_single_other
          (show (follow_of_item it now).user_id ≠ uid from he)]
        rw [lastOf, lastOf,
          follow_get_follow_create_other
            (show (follow_of_item it now).user_id ≠ uid from he)]
      rw [h1]
      exact optTimeLe_refl _

theorem claim_C2_amended_witness :
    optTimeLe (lastOf (Store.mk [] [mkFollow 42 none none] 0) 42)
        (lastOf
          (Store.mk [] [⟨42, "creator", none, some 1, some 50, some 5⟩] 0)
          42) ∧
      optTimeLe (lastOf (Store.mk [] [mkFollow 42 none none] 0) 42)
        (lastOf
          (collect_single_user_artworks
            (Store.mk [] [mkFollow 42 none none] 0) (mkFollow 42 none none) 0
            [[mkItem 7 42 (some 90000)]] 100000).1 42) :=
  ⟨claim_C2_amended.1 (fun _ => []) (Store.mk [] [mkFollow 42 none none] 0)
      (mkItem 9 42 (some 5)) 2 50
      (Store.mk [] [⟨42, "creator", none, some 1, some 50, some 5⟩] 0) false
      0 (by decide) 42,
    claim_C2_amended.2 (Store.mk [] [mkFollow 42 none none] 0)
      (mkFollow 42 none none) 0 [[mkItem 7 42 (some 90000)]] 100000
      (by decide) 42⟩

theorem merge_page_max_fields (st : BackfillState) (pm : Option Time) :
    (merge_page_max st pm).actual_cutoff = st.actual_cutoff ∧
      (merge_page_max st pm).first_artwork_date = st.first_artwork_date ∧
      (merge_page_max st pm).has_more = st.has_more ∧
      (merge_page_max st pm).artworks_list = st.artworks_list := by
  cases pm with
  | none => exact ⟨rfl, rfl, rfl, rfl⟩
  | some m =>
    rw [merge_page_max]
    cases st.last_artwork_date with
    | none => exact ⟨rfl, rfl, rfl, rfl⟩
    | some l => by_cases hc : m > l <;> simp [hc]

theorem backfill_items_inv (y : Int) (c0 : Time) (p : List Item) :
    ∀ (st : BackfillState) (pm : Option Time),
      st.first_artwork_date.isSome →
      (backfill_items y c0 p st pm).1.actual_cutoff = st.actual_cutoff ∧
        (backfill_items y c0 p st pm).1.first_artwork_date =
          st.first_artwork_date := by
  induction p with
  | nil => intro st pm h; exact ⟨rfl, rfl⟩
  | cons it rest ih =>
    intro st pm h
    rw [backfill_items]
    cases hd : it.create_date with
    | none => exact ih (backfill_append it st) pm (by simpa [backfill_append] using h)
    | some d =>
      have hnone : st.first_artwork_date.isNone = false := by
        cases hh : st.first_artwork_date
        · rw [hh] at h; exact absurd h (by simp)
        · rfl
      simp only [hnone, Bool.false_eq_true, if_false]
      by_cases hc : d < st.actual_cutoff
      · simp only [hc, if_true]
        exact ⟨trivial, trivial⟩
      · simp only [hc, if_false]
        exact ih (backfill_append it st) _ (by simpa [backfill_append] using h)

theorem backfill_items_mono (y : Int) (c0 : Time) (p : List Item) :
    ∀ (st : BackfillState) (pm : Option Time),
      ∃ ex, (backfill_items y c0 p st pm).1.artworks_list =
        st.artworks_list ++ ex := by
  induction p with
  | nil => intro st pm; exact ⟨[], by simp [backfill_items]⟩
  | cons it rest ih =>
    intro st pm
    rw [backfill_items]
    cases hd : it.create_date with
    | none =>
      obtain ⟨ex, he⟩ := ih (backfill_append it st) pm
      exact ⟨tagged_user_pages it ++ ex, by simpa [backfill_append] using he⟩
    | some d =>
      cases hn : st.first_artwork_date.isNone with
      | true =>
        simp only [hn, if_true]
        by_cases hcc : d < c0
        · simp only [hcc, if_true]
          by_cases hc : d <
              ({ st with
                  first_artwork_date := some d
                  actual_cutoff :=
                    d - y * 365 * secondsPerDay } : BackfillState).actual_cutoff
          · simp only [hc, if_true]
            exact ⟨[], by simp⟩
          · simp only [hc, if_false]
            obtain ⟨ex, he⟩ := ih (backfill_append it
              { st with
                  first_artwork_date := some d
                  actual_cutoff := d - y * 365 * secondsPerDay }) _
            exact ⟨tagged_user_pages it ++ ex,
              by simpa [backfill_append] using he⟩
        · simp only [hcc, if_false]
          by_cases hc : d <
              ({ st with first_artwork_date := some d } :
                BackfillState).actual_cutoff
          · simp only [hc, if_true]
            exact ⟨[], by simp⟩
          · simp only [hc, if_false]
            obtain ⟨ex, he⟩ := ih (backfill_append it
              { st with first_artwork_date := some d }) _
            exact ⟨tagged_user_pages it ++ ex,
              by simpa [backfill_append] using he⟩
      | false =>
        simp only [hn, Bool.false_eq_true, if_false]
        by_cases hc : d < st.actual_cutoff
        · simp only [hc, if_true]
          exact ⟨[], by simp⟩
        · simp only [hc, if_false]
          obtain ⟨ex, he⟩ := ih (backfill_append it st) _
          exact ⟨tagged_user_pages it ++ ex,
            by simpa [backfill_append] using he⟩

theorem backfill_pages_inv (y : Int) (c0 : Time) (pages : List (List Item)) :
    ∀ st : BackfillState, st.first_artwork_date.isSome →
      (backfill_pages y c0 pages st).actual_cutoff = st.actual_cutoff ∧
        (backfill_pages y c0 pages st).first_artwork_date =
          st.first_artwork_date := by
  induction pages with
  | nil => intro st h; exact ⟨rfl, rfl⟩
  | cons p rest ih =>
    intro st h
    rw [backfill_pages]
    by_cases hp : p.isEmpty
    · simp only [hp, if_true]
      exact ⟨trivial, trivial⟩
    · simp only [hp, Bool.false_eq_true, if_false]
      obtain ⟨hcut, hfst⟩ := backfill_items_inv y c0 p st none h
      obtain ⟨hm1, hm2, hm3, hm4⟩ := merge_page_max_fields
        (backfill_items y c0 p st none).1 (backfill_items y c0 p st none).2
      have hsome : (merge_page_max (backfill_items y c0 p st none).1
          (backfill_items y c0 p st none).2).first_artwork_date.isSome := by
        rw [hm2, hfst]
        exact h
      cases hmore : (merge_page_max (backfill_items y c0 p st none).1
          (backfill_items y c0 p st none).2).has_more with
      | false =>
        simp only [hmore, Bool.false_eq_true, if_false]
        exact ⟨hm1.trans hcut, hm2.trans hfst⟩
      | true =>
        simp only [hmore, if_true]
        by_cases hre : rest.isEmpty
        · simp only [hre, if_true]
          exact ⟨hm1.trans hcut, hm2.trans hfst⟩
        · simp only [hre, Bool.false_eq_true, if_false]
          obtain ⟨h1, h2⟩ := ih _ hsome
          exact ⟨h1.trans (hm1.trans hcut), h2.trans (hm2.trans hfst)⟩

theorem backfill_pages_mono (y : Int) (c0 : Time)
    (pages : List (List Item)) :
    ∀ st : BackfillState,
      ∃ ex, (backfill_pages y c0 pages st).artworks_list =
        st.artworks_list ++ ex := by
  induction pages with
  | nil => intro st; exact ⟨[], by simp [backfill_pages]⟩
  | cons p rest ih =>
    intro st
    rw [backfill_pages]
    by_cases hp : p.isEmpty
    · simp only [hp, if_true]
      exact ⟨[], by simp⟩
    · simp only [hp, Bool.false_eq_true, if_false]
      obtain ⟨ex1, he1⟩ := backfill_items_mono y c0 p st none
      obtain ⟨-, -, -, hm4⟩ := merge_page_max_fields
        (backfill_items y c0 p st none).1 (backfill_items y c0 p st none).2
      cases hmore : (merge_page_max (backfill_items y c0 p st none).1
          (backfill_items y c0 p st none).2).has_more with
      | false =>
        simp only [hmore, Bool.false_eq_true, if_false]
        exact ⟨ex1, hm4.trans he1⟩
      | true =>
        simp only [hmore, if_true]
        by_cases hre : rest.isEmpty
        · simp only [hre, if_true]
          exact ⟨ex1, hm4.trans he1⟩
        · simp only [hre, Bool.false_eq_true, if_false]
          obtain ⟨ex2, he2⟩ := ih _
          refine ⟨ex1 ++ ex2, ?_⟩
          rw [he2, hm4, he1, List.append_assoc]

theorem backfill_items_fresh (y : Int) (c0 : Time) (p : List Item) :
    ∀ (st : BackfillState) (pm : Option Time),
      st.first_artwork_date = none → st.actual_cutoff = c0 →
      (match p.find? (fun it => it.create_date.isSome) with
        | none =>
            (backfill_items y c0 p st pm).1.actual_cutoff = c0 ∧
              (backfill_items y c0 p st pm).1.first_artwork_date = none ∧
              (backfill_items y c0 p st pm).1.has_more = st.has_more ∧
              (backfill_items y c0 p st pm).2 = pm
        | some it0 =>
            ∀ d, it0.create_date = some d →
              (backfill_items y c0 p st pm).1.actual_cutoff =
                (if d < c0 then d - y * 365 * secondsPerDay else c0) ∧
                (backfill_items y c0 p st pm).1.first_artwork_date =
                  some d) := by
  induction p with
  | nil =>
    intro st pm h1 h2
    simp only [List.find?_nil]
    exact ⟨h2, h1, rfl, rfl⟩
  | cons it rest ih =>
    intro st pm h1 h2
    cases hcd : it.create_date with
    | none =>
      have hfind : (it :: rest).find? (fun x => x.create_date.isSome) =
          rest.find? (fun x => x.create_date.isSome) := by
        simp [List.find?_cons, hcd]
      rw [hfind]
      have hrec := ih (backfill_append it st) pm
        (by simpa [backfill_append] using h1)
        (by simpa [backfill_append] using h2)
      rw [backfill_items]
      simp only [hcd]
      exact hrec
    | some d =>
      have hfind : (it :: rest).find? (fun x => x.create_date.isSome) =
          some it := by
        simp [List.find?_cons, hcd]
      rw [hfind]
      intro d2 hd2
      have hdd : d2 = d := Option.some.inj (hd2.symm.trans hcd)
      rw [hdd]
      simp only [backfill_items, hcd]
      have hisnone : st.first_artwork_date.isNone = true := by
        rw [h1]
        rfl
      simp only [hisnone, if_true]
      by_cases hcc : d < c0
      · simp only [hcc, if_true]
        by_cases hstop : d <
            ({ st with
                first_artwork_date := some d
                actual_cutoff := d - y * 365 * secondsPerDay } :
              BackfillState).actual_cutoff
        · simp only [hstop, if_true]
          exact ⟨by simp [hcc], by trivial⟩
        · simp only [hstop, if_false]
          obtain ⟨hc1, hc2⟩ := backfill_items_inv y c0 rest
            (backfill_append it
              { st with
                  first_artwork_date := some d
                  actual_cutoff := d - y * 365 * secondsPerDay }) _
            (by simp [backfill_append])
          refine ⟨?_, ?_⟩
          · rw [hc1]
            simp [backfill_append, hcc]
          · rw [hc2]
            simp [backfill_append]
      · simp only [hcc, if_false]
        by_cases hstop : d <
            ({ st with first_artwork_date := some d } :
              BackfillState).actual_cutoff
        · simp only [hstop, if_true]
          refine ⟨?_, by trivial⟩
          show st.actual_cutoff = _
          rw [h2]
        · simp only [hstop, if_false]
          obtain ⟨hc1, hc2⟩ := backfill_items_inv y c0 rest
            (backfill_append it { st with first_artwork_date := some d }) _
            (by simp [backfill_append])
          refine ⟨?_, ?_⟩
          · rw [hc1]
            show st.actual_cutoff = _
            rw [h2]
          · rw [hc2]
            simp [backfill_append]

theorem backfill_pages_fresh (y : Int) (c0 : Time)
    (pages : List (List Item)) :
    ∀ st : BackfillState,
      st.first_artwork_date = none → st.actual_cutoff = c0 →
      st.has_more = true →
      (backfill_pages y c0 pages st).actual_cutoff =
          (match first_dated_date pages with
            | some d => if d < c0 then d - y * 365 * secondsPerDay else c0
            | none => c0) ∧
        (first_dated_date pages = none →
          (backfill_pages y c0 pages st).first_artwork_date = none ∧
            (backfill_pages y c0 pages st).has_more = true) := by
  induction pages with
  | nil =>
    intro st h1 h2 h3
    simp only [first_dated_date, backfill_pages]
    exact ⟨h2, fun _ => ⟨h1, h3⟩⟩
  | cons p rest ih =>
    intro st h1 h2 h3
    by_cases hp : p.isEmpty
    · have hfd : first_dated_date (p :: rest) = none := by
        rw [first_dated_date]
        simp [hp]
      rw [backfill_pages, hfd]
      simp only [hp, if_true]
      exact ⟨h2, fun _ => ⟨h1, h3⟩⟩
    · cases hfind : p.find? (fun it => it.create_date.isSome) with
      | some it0 =>
        have hsome : it0.create_date.isSome := by
          have h := List.find?_some hfind
          simpa using h
        obtain ⟨d, hd⟩ := Option.isSome_iff_exists.mp hsome
        have hfd : first_dated_date (p :: rest) = some d := by
          rw [first_dated_date, if_neg hp, hfind]
          exact hd
        rw [backfill_pages, hfd]
        simp only [hp, Bool.false_eq_true, if_false]
        have hfresh := backfill_items_fresh y c0 p st none h1 h2
        rw [hfind] at hfresh
        obtain ⟨hcut, hfst⟩ := hfresh d hd
        obtain ⟨hm1, hm2, hm3, hm4⟩ := merge_page_max_fields
          (backfill_items y c0 p st none).1 (backfill_items y c0 p st none).2
        cases hmore : (merge_page_max (backfill_items y c0 p st none).1
            (backfill_items y c0 p st none).2).has_more with
        | false =>
          simp only [hmore, Bool.false_eq_true, if_false]
          exact ⟨hm1.trans hcut, fun hc => absurd hc (by simp)⟩
        | true =>
          simp only [hmore, if_true]
          by_cases hre : rest.isEmpty
          · simp only [hre, if_true]
            exact ⟨hm1.trans hcut, fun hc => absurd hc (by simp)⟩
          · simp only [hre, Bool.false_eq_true, if_false]
            have hsome2 : (merge_page_max (backfill_items y c0 p st none).1
                (backfill_items y c0 p st none).2).first_artwork_date.isSome
                := by
              rw [hm2, hfst]
              rfl
            obtain ⟨hi1, hi2⟩ := backfill_pages_inv y c0 rest _ hsome2
            exact ⟨hi1.trans (hm1.trans hcut),
              fun hc => absurd hc (by simp)⟩
      | none =>
        have hfd : first_dated_date (p :: rest) = first_dated_date rest := by
          rw [first_dated_date, if_neg hp, hfind]
        rw [backfill_pages, hfd]
        simp only [hp, Bool.false_eq_true, if_false]
        have hfresh := backfill_items_fresh y c0 p st none h1 h2
        rw [hfind] at hfresh
        obtain ⟨hcut, hfst, hhm, hpm⟩ := hfresh
        obtain ⟨hm1, hm2, hm3, hm4⟩ := merge_page_max_fields
          (backfill_items y c0 p st none).1 (backfill_items y c0 p st none).2
        have hmore : (merge_page_max (backfill_items y c0 p st none).1
            (backfill_items y c0 p st none).2).has_more = true := by
          rw [hm3, hhm, h3]
        simp only [hmore, if_true]
        by_cases hre : rest.isEmpty
        · have hnil : rest = [] := by simpa using hre
          subst hnil
          simp only [hre, if_true]
          simp only [first_dated_date]
          exact ⟨hm1.trans hcut, fun _ => ⟨hm2.trans hfst, hmore⟩⟩
        · simp only [hre, Bool.false_eq_true, if_false]
          exact ih _ (hm2.trans hfst) (hm1.trans hcut) hmore

theorem backfill_items_complete (y : Int) (c0 : Time) (p : List Item) :
    ∀ (st : BackfillState) (pm : Option Time),
      (∀ it ∈ p, ∀ d, it.create_date = some d → c0 ≤ d) →
      st.actual_cutoff = c0 →
      (backfill_items y c0 p st pm).1.artworks_list =
          st.artworks_list ++ (p.map tagged_user_pages).flatten ∧
        (backfill_items y c0 p st pm).1.has_more = st.has_more ∧
        (backfill_items y c0 p st pm).1.actual_cutoff = c0 := by
  induction p with
  | nil =>
    intro st pm hall h2
    exact ⟨by simp [backfill_items], rfl, h2⟩
  | cons it rest ih =>
    intro st pm hall h2
    have hall2 : ∀ x ∈ rest, ∀ d, x.create_date = some d → c0 ≤ d :=
      fun x hx => hall x (List.mem_cons_of_mem it hx)
    rw [backfill_items]
    cases hcd : it.create_date with
    | none =>
      obtain ⟨ha, hb, hc⟩ := ih (backfill_append it st) pm hall2
        (by simpa [backfill_append] using h2)
      refine ⟨?_, hb, hc⟩
      rw [ha]
      simp [backfill_append, List.append_assoc]
    | some d =>
      have hge : c0 ≤ d := hall it (List.mem_cons_self it rest) d hcd
      cases hn : st.first_artwork_date.isNone with
      | true =>
        simp only [hn, if_true]
        have hcc : ¬ d < c0 := not_lt.mpr hge
        simp only [hcc, if_false]
        by_cases hstop : d < ({ st with first_artwork_date := some d } :
            BackfillState).actual_cutoff
        · exact absurd hstop (by
            show ¬ d < st.actual_cutoff
            rw [h2]
            exact not_lt.mpr hge)
        · simp only [hstop, if_false]
          obtain ⟨ha, hb, hc⟩ := ih
            (backfill_append it { st with first_artwork_date := some d }) _
            hall2 (by simpa [backfill_append] using h2)
          refine ⟨?_, ?_, hc⟩
          · rw [ha]
            simp [backfill_append, List.append_assoc]
          · rw [hb]
            rfl
      | false =>
        simp only [hn, Bool.false_eq_true, if_false]
        by_cases hstop : d < st.actual_cutoff
        · rw [h2] at hstop
          exact absurd hstop (not_lt.mpr hge)
        · simp only [hstop, if_false]
          obtain ⟨ha, hb, hc⟩ := ih (backfill_append it st) _ hall2
            (by simpa [backfill_append] using h2)
          refine ⟨?_, ?_, hc⟩
          · rw [ha]
            simp [backfill_append, List.append_assoc]
          · rw [hb]
            rfl

theorem backfill_pages_complete (y : Int) (c0 : Time)
    (pages : List (List Item)) :
    ∀ st : BackfillState,
      (∀ p ∈ pages, p.isEmpty = false) →
      (∀ p ∈ pages, ∀ it ∈ p, ∀ d, it.create_date = some d → c0 ≤ d) →
      st.actual_cutoff = c0 → st.has_more = true →
      (backfill_pages y c0 pages st).artworks_list =
        st.artworks_list ++
          (pages.map fun p => (p.map tagged_user_pages).flatten).flatten := by
  induction pages with
  | nil =>
    intro st hne hall h2 h3
    simp [backfill_pages]
  | cons p rest ih =>
    intro st hne hall h2 h3
    rw [backfill_pages]
    have hp : p.isEmpty = false := hne p (List.mem_cons_self p rest)
    simp only [hp, Bool.false_eq_true, if_false]
    obtain ⟨ha, hb, hc⟩ := backfill_items_complete y c0 p st none
      (hall p (List.mem_cons_self p rest)) h2
    obtain ⟨hm1, hm2, hm3, hm4⟩ := merge_page_max_fields
      (backfill_items y c0 p st none).1 (backfill_items y c0 p st none).2
    have hmore : (merge_page_max (backfill_items y c0 p st none).1
        (backfill_items y c0 p st none).2).has_more = true := by
      rw [hm3, hb, h3]
    simp only [hmore, if_true]
    by_cases hre : rest.isEmpty
    · have hnil : rest = [] := by simpa using hre
      subst hnil
      simp only [hre, if_true]
      rw [hm4, ha]
      simp
    · simp only [hre, Bool.false_eq_true, if_false]
      have hrest := ih (merge_page_max (backfill_items y c0 p st none).1
          (backfill_items y c0 p st none).2)
        (fun q hq => hne q (List.mem_cons_of_mem p hq))
        (fun q hq => hall q (List.mem_cons_of_mem p hq))
        (hm1.trans hc) hmore
      rw [hrest, hm4, ha]
      simp [List.append_assoc]

theorem backfill_items_head_dated (y : Int) (c0 : Time) (x : Item)
    (p1 : List Item) (st : BackfillState) (d : Time)
    (hx : x.create_date = some d) (h1 : st.first_artwork_date = none)
    (hy : 0 ≤ y) (hd : d < c0) :
    backfill_items y c0 (x :: p1) st none =
      backfill_items y c0 p1
        (backfill_append x
          { st with
              first_artwork_date := some d
              actual_cutoff := d - y * 365 * secondsPerDay })
        (some d) := by
  have hisnone : st.first_artwork_date.isNone = true := by
    rw [h1]
    rfl
  have hW : (0 : Int) ≤ y * 365 * secondsPerDay := by
    have h365 : (0 : Int) ≤ y * 365 := mul_nonneg hy (by norm_num)
    exact mul_nonneg h365 (by norm_num [secondsPerDay])
  have hstop : ¬ d < d - y * 365 * secondsPerDay :=
    not_lt.mpr (sub_le_self d hW)
  rw [backfill_items]
  simp only [hx, hisnone, if_true, hd, hstop, if_false]

theorem backfill_pages_head_dated (y : Int) (c0 : Time) (x : Item)
    (p1 : List Item) (rest : List (List Item)) (d : Time)
    (hy : 0 ≤ y) (hx : x.create_date = some d) (hd : d < c0) :
    (backfill_pages y c0 ((x :: p1) :: rest)
        (backfill_init c0)).actual_cutoff = d - y * 365 * secondsPerDay ∧
      (backfill_pages y c0 ((x :: p1) :: rest)
          (backfill_init c0)).first_artwork_date = some d ∧
      tagged_user_pages x <+:
        (backfill_pages y c0 ((x :: p1) :: rest)
            (backfill_init c0)).artworks_list := by
  rw [backfill_pages]
  simp only [List.isEmpty_cons, Bool.false_eq_true, if_false]
  rw [backfill_items_head_dated y c0 x p1 (backfill_init c0) d hx rfl hy hd]
  set A := backfill_append x
    { backfill_init c0 with
        first_artwork_date := some d
        actual_cutoff := d - y * 365 * secondsPerDay } with hA
  have hfA : A.first_artwork_date.isSome := by
    rw [hA]
    rfl
  obtain ⟨hi1, hi2⟩ := backfill_items_inv y c0 p1 A (some d) hfA
  obtain ⟨ex1, hm⟩ := backfill_items_mono y c0 p1 A (some d)
  have hAart : A.artworks_list = tagged_user_pages x := by
    rw [hA]
    simp [backfill_append, backfill_init]
  obtain ⟨hg1, hg2, hg3, hg4⟩ := merge_page_max_fields
    (backfill_items y c0 p1 A (some d)).1 (backfill_items y c0 p1 A (some d)).2
  cases hmore : (merge_page_max (backfill_items y c0 p1 A (some d)).1
      (backfill_items y c0 p1 A (some d)).2).has_more with
  | false =>
    simp only [hmore, Bool.false_eq_true, if_false]
    refine ⟨?_, ?_, ?_⟩
    · rw [hg1, hi1, hA]
      rfl
    · rw [hg2, hi2, hA]
      rfl
    · rw [hg4, hm, hAart]
      exact List.prefix_append _ ex1
  | true =>
    simp only [hmore, if_true]
    by_cases hre : rest.isEmpty
    · simp only [hre, if_true]
      refine ⟨?_, ?_, ?_⟩
      · rw [hg1, hi1, hA]
        rfl
      · rw [hg2, hi2, hA]
        rfl
      · rw [hg4, hm, hAart]
        exact List.prefix_append _ ex1
    · simp only [hre, Bool.false_eq_true, if_false]
      have hsome2 : (merge_page_max (backfill_items y c0 p1 A (some d)).1
          (backfill_items y c0 p1 A (some d)).2).first_artwork_date.isSome
          := by
        rw [hg2, hi2, hA]
        rfl
      obtain ⟨hp1, hp2⟩ := backfill_pages_inv y c0 rest
        (merge_page_max (backfill_items y c0 p1 A (some d)).1
          (backfill_items y c0 p1 A (some d)).2) hsome2
      obtain ⟨ex2, hq⟩ := backfill_pages_mono y c0 rest
        (merge_page_max (backfill_items y c0 p1 A (some d)).1
          (backfill_items y c0 p1 A (some d)).2)
      refine ⟨?_, ?_, ?_⟩
      · rw [hp1, hg1, hi1, hA]
        rfl
      · rw [hp2, hg2, hi2, hA]
        rfl
      · rw [hq, hg4, hm, hAart, List.append_assoc]
        exact List.prefix_append _ _

/-- C6 (counterexample): the spec's refresh mode does not exist.  For a
creator whose `last_collect_date` is 90, running the backfill over a feed
whose first item matches an existing (1, 0) record and whose second item is
dated 50 — before the last collect date — still saves the second item: the
code neither derives the cutoff from the last collect date nor stops at an
existing record. -/
theorem claim_C6_counterexample :
    (mkFollow 42 (some 90) (some 100)).last_collect_date = some 90 ∧
      (get_by_illust_id_and_page
          (Store.mk
            [mkArtwork 0 1 0 "follow_user_artworks" (some 100) (some 100)]
            [mkFollow 42 (some 90) (some 100)] 1) 1 0).isSome = true ∧
      ((50 : Int) < 90) ∧
      (get_by_illust_id_and_page
          (applyStrategy
            (StrategyRun.backfill (mkFollow 42 (some 90) (some 100)) 2
              [[mkItem 1 42 (some 100), mkItem 2 42 (some 50)]] 1000)
            (Store.mk
              [mkArtwork 0 1 0 "follow_user_artworks" (some 100) (some 100)]
              [mkFollow 42 (some 90) (some 100)] 1)) 2 0).isSome = true := by
  decide

/-- C6 (amended): the backfill cutoff is determined solely by now minus the
backtrack window and by the first dated item of the feed (widened by one
further window when that item predates the preset cutoff) — never by the
creator's last collect date — and when every page is nonempty and every
dated item lies on or after the preset cutoff, the traversal collects the
parsed pages of every item of every page, with no stop at existing
records. -/
theorem claim_C6_amended :
    (∀ (y : Int) (now : Time) (pages : List (List Item)),
        (backfill_pages y (now - y * 365 * secondsPerDay) pages
            (backfill_init (now - y * 365 * secondsPerDay))).actual_cutoff =
          match first_dated_date pages with
          | some d =>
              if d < now - y * 365 * secondsPerDay then
                d - y * 365 * secondsPerDay
              else now - y * 365 * secondsPerDay
          | none => now - y * 365 * secondsPerDay) ∧
      ∀ (y : Int) (now : Time) (pages : List (List Item)),
        (∀ p ∈ pages, p.isEmpty = false) →
        (∀ p ∈ pages, ∀ it ∈ p, ∀ d, it.create_date = some d →
            now - y * 365 * secondsPerDay ≤ d) →
        (backfill_pages y (now - y * 365 * secondsPerDay) pages
            (backfill_init (now - y * 365 * secondsPerDay))).artworks_list =
          (pages.map fun p => (p.map tagged_user_pages).flatten).flatten := by
  constructor
  · intro y now pages
    exact (backfill_pages_fresh y (now - y * 365 * secondsPerDay) pages
      (backfill_init (now - y * 365 * secondsPerDay)) rfl rfl rfl).1
  · intro y now pages hne hall
    have h := backfill_pages_complete y (now - y * 365 * secondsPerDay) pages
      (backfill_init (now - y * 365 * secondsPerDay)) hne hall rfl rfl
    simpa using h

theorem claim_C6_amended_witness :
    ((backfill_pages 2 (100000000 - 2 * 365 * secondsPerDay)
        [[mkItem 1 42 (some 100)]]
        (backfill_init
          (100000000 - 2 * 365 * secondsPerDay))).actual_cutoff =
      100 - 2 * 365 * secondsPerDay) ∧
      (backfill_pages 2 (1000 - 2 * 365 * secondsPerDay)
          [[mkItem 5 42 (some 2000)]]
          (backfill_init (1000 - 2 * 365 * secondsPerDay))).artworks_list =
        ([[mkItem 5 42 (some 2000)]].map
            fun p => (p.map tagged_user_pages).flatten).flatten := by
  constructor
  · have h := claim_C6_amended.1 2 100000000 [[mkItem 1 42 (some 100)]]
    rw [h]
    decide
  · exact claim_C6_amended.2 2 1000 [[mkItem 5 42 (some 2000)]]
      (by decide)
      (by
        intro p hp it hit d hd
        simp only [List.mem_singleton] at hp
        subst hp
        simp only [List.mem_singleton] at hit
        subst hit
        have hc : (mkItem 5 42 (some 2000)).create_date = some 2000 := rfl
        have hd2 : d = 2000 := (Option.some.inj (hc.symm.trans hd)).symm
        subst hd2
        decide)

/-- C7: when the first item of the first feed page carries a date that
precedes the preset cutoff of now minus the backtrack window, the backfill
retroactively widens the actual cutoff to that date minus one full backtrack
window, records that date as the first artwork date, and still collects the
item's parsed pages at the head of the results instead of yielding
nothing. -/
theorem claim_C7_retroactive_widening (y : Int) (now : Time) (x : Item)
    (p1 : List Item) (rest : List (List Item)) (d : Time)
    (hy : 0 ≤ y) (hx : x.create_date = some d)
    (hd : d < now - y * 365 * secondsPerDay) :
    (backfill_pages y (now - y * 365 * secondsPerDay) ((x :: p1) :: rest)
        (backfill_init (now - y * 365 * secondsPerDay))).actual_cutoff =
      d - y * 365 * secondsPerDay ∧
      (backfill_pages y (now - y * 365 * secondsPerDay) ((x :: p1) :: rest)
          (backfill_init
            (now - y * 365 * secondsPerDay))).first_artwork_date = some d ∧
      tagged_user_pages x <+:
        (backfill_pages y (now - y * 365 * secondsPerDay) ((x :: p1) :: rest)
            (backfill_init (now - y * 365 * secondsPerDay))).artworks_list :=
  backfill_pages_head_dated y (now - y * 365 * secondsPerDay) x p1 rest d
    hy hx hd

theorem claim_C7_retroactive_widening_witness :
    ((0 : Int) ≤ 0) ∧
      (mkItem 9 42 (some 50)).create_date = some 50 ∧
      ((50 : Time) < 100 - 0 * 365 * secondsPerDay) ∧
      ((backfill_pages 0 (100 - 0 * 365 * secondsPerDay)
          [[mkItem 9 42 (some 50)]]
          (backfill_init (100 - 0 * 365 * secondsPerDay))).actual_cutoff =
        50 - 0 * 365 * secondsPerDay ∧
        (backfill_pages 0 (100 - 0 * 365 * secondsPerDay)
            [[mkItem 9 42 (some 50)]]
            (backfill_init
              (100 - 0 * 365 * secondsPerDay))).first_artwork_date =
          some 50 ∧
        tagged_user_pages (mkItem 9 42 (some 50)) <+:
          (backfill_pages 0 (100 - 0 * 365 * secondsPerDay)
              [[mkItem 9 42 (some 50)]]
              (backfill_init
                (100 - 0 * 365 * secondsPerDay))).artworks_list) :=
  ⟨by decide, by decide, by decide,
    claim_C7_retroactive_widening 0 100 (mkItem 9 42 (some 50)) [] [] 50
      (by decide) (by decide) (by decide)⟩

end PixCollector
